import Mathlib

/-!
# The ECS core of 2DGameEngine (src/ECS/ECS.h, src/ECS/ECS.cpp)

A shallow embedding of the entity-component-system registry.

Modelling conventions.
* A component type `T` and a system type `Tsys` are named by a natural number
  (the role `typeid` plays in the source).
* Component values of every type live in one value type `V`; `default` is the
  default-constructed component that `std::vector::resize` fills new slots with.
* The `int` counters `next_id` and `num_ents` only ever count up from 0 and are
  `Nat`; an entity id is a `Nat`.
* `std::bitset<32>` is a natural number below `2 ^ 32`; `set` and `test` throw
  `std::out_of_range` for a position outside the bitset, as the standard says.
* Undefined behaviour (indexing a vector out of bounds, using a null pool,
  erasing `end()`) is the error `Err.undefined`.
* `Logger::log` calls only print and are left out.
-/

namespace ECS

set_option maxRecDepth 8192

/-- ECS.h:14, `const unsigned int MAX_COMPS = 32`. -/
def MAX_COMPS : Nat := 32

/-- The two ways an operation fails to return normally. -/
inductive Err where
  | out_of_range
  | undefined
  deriving DecidableEq, Repr

/-! ## Signature (ECS.h:22, `std::bitset<MAX_COMPS>`) -/

/-- ECS.h:22, `typedef std::bitset<MAX_COMPS> Signature`: the bits as a number. -/
structure Signature where
  bits : Nat
  lt : bits < 2 ^ MAX_COMPS
  deriving DecidableEq

/-- The value-initialised bitset: no bit set. -/
def Signature.empty : Signature := ⟨0, by decide⟩

/-- The call `bitset::test(pos)`: throws when `pos` is not a position of the bitset. -/
def Signature.test (s : Signature) (pos : Nat) : Except Err Bool :=
  if pos < MAX_COMPS then .ok (s.bits.testBit pos) else .error .out_of_range

/-- The call `bitset::set(pos, val)`: throws when `pos` is not a position of the bitset. -/
def Signature.set (s : Signature) (pos : Nat) (val : Bool) : Except Err Signature :=
  if h : pos < MAX_COMPS then
    if val then
      .ok ⟨s.bits ||| (1 <<< pos),
        Nat.or_lt_two_pow s.lt (by
          rw [Nat.one_shiftLeft]
          exact Nat.pow_lt_pow_right (by decide) h)⟩
    else
      .ok ⟨s.bits &&& ((2 ^ MAX_COMPS - 1) ^^^ (1 <<< pos)),
        Nat.lt_of_le_of_lt Nat.and_le_left s.lt⟩
  else .error .out_of_range

/-- The operator `a & b` on two bitsets. -/
def Signature.and (a b : Signature) : Signature :=
  ⟨a.bits &&& b.bits, Nat.lt_of_le_of_lt Nat.and_le_left a.lt⟩

/-- ECS.cpp:52, `(ent_comp_sign & sys_comp_sign) == sys_comp_sign`. -/
def is_interested (ent_comp_sign sys_comp_sign : Signature) : Bool :=
  decide (ent_comp_sign.and sys_comp_sign = sys_comp_sign)

/-! ## Component type ids (ECS.h:24-40, ECS.cpp:5) -/

/-- The process-wide id state: `Icomp::next_id` and, for every instantiation
`Component<T>` whose `get_id` has run, the value of its function-local
`static auto id`, as a pair `(T, id)`. -/
structure Icomp where
  next_id : Nat
  ids : List (Nat × Nat)
  deriving DecidableEq

/-- ECS.cpp:5, `int Icomp::next_id = 0`, and no local static initialised yet. -/
def Icomp.init : Icomp := ⟨0, []⟩

/-- ECS.h:36-39, `Component<T>::get_id`: the static local is initialised with
`next_id++` by the first call for `T`; every call returns it. -/
def Component.get_id (T : Nat) (st : Icomp) : Nat × Icomp :=
  match st.ids.lookup T with
  | some id => (id, st)
  | none => (st.next_id, { next_id := st.next_id + 1, ids := (T, st.next_id) :: st.ids })

/-- The id state after `get_id` has been called for the types of `Ts`, in order. -/
def Icomp.after (Ts : List Nat) : Icomp :=
  Ts.foldl (fun st T => (Component.get_id T st).2) Icomp.init

/-! ## Entity (ECS.h:45-74, ECS.cpp:7) -/

/-- ECS.h:45-74: an entity is its id; the back pointer `reg` to the one
registry is not modelled. Equality and order are by id (ECS.h:60-63). -/
structure Entity where
  id : Nat
  deriving DecidableEq, Repr

/-- ECS.cpp:7, `Entity::get_id`. -/
def Entity.get_id (e : Entity) : Nat := e.id

/-! ## System (ECS.h:81-98, ECS.cpp:9-21, ECS.h:219-224) -/

/-- ECS.h:81-98: the required signature and the member list. -/
structure System where
  comp_sign : Signature
  ents : List Entity
  deriving DecidableEq

/-- The default-constructed `System`: empty signature, no members. -/
def System.new : System := ⟨Signature.empty, []⟩

/-- ECS.cpp:9, `ents.push_back(ent)`. -/
def System.add_ent_to_sys (s : System) (ent : Entity) : System :=
  { s with ents := s.ents ++ [ent] }

/-- ECS.cpp:11-17, erase-remove of every `other` with `ent == other`. -/
def System.rm_ent_from_sys (s : System) (ent : Entity) : System :=
  { s with ents := s.ents.filter (fun other => !decide (ent.id = other.id)) }

/-- ECS.cpp:19, `System::get_sys_ents`. -/
def System.get_sys_ents (s : System) : List Entity := s.ents

/-- ECS.cpp:21, `System::get_comp_sign`. -/
def System.get_comp_sign (s : System) : Signature := s.comp_sign

/-- ECS.h:219-224, `System::req_comp<Tcomp>`: take the id of `Tcomp`, set that bit. -/
def System.req_comp (T : Nat) (s : System) (ic : Icomp) : Except Err (System × Icomp) :=
  let r := Component.get_id T ic
  match s.comp_sign.set r.1 true with
  | .ok sg => .ok ({ s with comp_sign := sg }, r.2)
  | .error e => .error e

/-- The constructor of a system type that requires the component types `reqs`:
one `req_comp` call per type, in order (Systems.h:16-20, 39-43). -/
def System.construct : List Nat → System → Icomp → Except Err (System × Icomp)
  | [], s, ic => .ok (s, ic)
  | T :: Ts, s, ic =>
    match System.req_comp T s ic with
    | .ok r => System.construct Ts r.1 r.2
    | .error e => .error e

/-! ## Vectors and pools (ECS.h:105-140) -/

/-- The call `std::vector::resize(n, d)`: cut to `n` elements or pad with `d`. -/
def vector_resize {α : Type} (n : Nat) (d : α) (xs : List α) : List α :=
  xs.take n ++ List.replicate (n - xs.length) d

/-- The indexing `v[i]` of a vector: undefined outside its bounds. -/
def vector_at {α : Type} (xs : List α) (i : Nat) : Except Err α :=
  match xs[i]? with
  | some x => .ok x
  | none => .error .undefined

/-- ECS.h:111-140: a pool is its vector `data`. -/
structure Pool (V : Type) where
  data : List V
  deriving DecidableEq

/-- ECS.h:121, `Pool(int cap = 100) { data.resize(cap); }`. -/
def Pool.new {V : Type} [Inhabited V] (cap : Nat) : Pool V := ⟨vector_resize cap default []⟩

/-- ECS.h:127, `Pool::get_size`. -/
def Pool.get_size {V : Type} (p : Pool V) : Nat := p.data.length

/-- ECS.h:129, `void resize(int n) { data.resize(n); }`. -/
def Pool.resize {V : Type} [Inhabited V] (p : Pool V) (n : Nat) : Pool V :=
  ⟨vector_resize n default p.data⟩

/-- ECS.h:135, `void set(int idx, T obj) { data[idx] = obj; }`. -/
def Pool.set {V : Type} (p : Pool V) (idx : Nat) (obj : V) : Except Err (Pool V) :=
  if idx < p.data.length then .ok ⟨p.data.set idx obj⟩ else .error .undefined

/-- ECS.h:137, `T& get(int idx) { return data[idx]; }`. -/
def Pool.get {V : Type} (p : Pool V) (idx : Nat) : Except Err V :=
  vector_at p.data idx

/-! ## Registry (ECS.h:148-212) -/

/-- ECS.h:148-168: the fields of `Registry`. `comp_pools` holds `none` for a
null pointer; `systems` lists the `unordered_map` as `(system type, system)`
pairs; the two `std::set<Entity>` are lists kept in ascending id order. -/
structure Registry (V : Type) where
  num_ents : Nat
  comp_pools : List (Option (Pool V))
  ent_comp_signs : List Signature
  systems : List (Nat × System)
  ents_to_add : List Entity
  ents_to_kill : List Entity
  deriving DecidableEq

/-- The freshly constructed registry: `num_ents = 0`, every container empty. -/
def Registry.empty {V : Type} : Registry V := ⟨0, [], [], [], [], []⟩

/-- The whole program state the operations act on: the process-wide component
id state and the registry. -/
structure World (V : Type) where
  icomp : Icomp
  reg : Registry V
  deriving DecidableEq

/-- The state at program start. -/
def World.init {V : Type} : World V := ⟨Icomp.init, Registry.empty⟩

/-- The call `std::set<Entity>::insert`: ordered by `operator<` (the id), and no
effect when an element with the same id is present. -/
def set_insert (e : Entity) : List Entity → List Entity
  | [] => [e]
  | x :: xs =>
    if e.id < x.id then e :: x :: xs
    else if x.id < e.id then x :: set_insert e xs
    else x :: xs

/-- ECS.cpp:23-39, `Registry::create_ent`. -/
def Registry.create_ent {V : Type} (r : Registry V) : Entity × Registry V :=
  let ent_id := r.num_ents
  let signs :=
    if ent_id ≥ r.ent_comp_signs.length then
      vector_resize (ent_id + 1) Signature.empty r.ent_comp_signs
    else r.ent_comp_signs
  let ent : Entity := ⟨ent_id⟩
  (ent, { r with
    num_ents := r.num_ents + 1
    ent_comp_signs := signs
    ents_to_add := set_insert ent r.ents_to_add })

/-- ECS.cpp:41-59, `Registry::add_ent_to_syss`: every system whose required
signature the entity's signature covers gets the entity appended. -/
def Registry.add_ent_to_syss {V : Type} (ent : Entity) (r : Registry V) :
    Except Err (Registry V) :=
  match vector_at r.ent_comp_signs ent.get_id with
  | .error e => .error e
  | .ok ent_comp_sign =>
    .ok { r with systems := r.systems.map (fun system =>
      if is_interested ent_comp_sign system.2.get_comp_sign then
        (system.1, system.2.add_ent_to_sys ent)
      else system) }

/-- The loop `for (auto ent : ents_to_add) add_ent_to_syss(ent)` of ECS.cpp:69-72. -/
def Registry.add_all {V : Type} : List Entity → Registry V → Except Err (Registry V)
  | [], r => .ok r
  | ent :: rest, r =>
    match r.add_ent_to_syss ent with
    | .error e => .error e
    | .ok r1 => Registry.add_all rest r1

/-- ECS.cpp:61-77, `Registry::update`: the loop, then `ents_to_add.clear()`. -/
def Registry.update {V : Type} (r : Registry V) : Except Err (Registry V) :=
  match Registry.add_all r.ents_to_add r with
  | .error e => .error e
  | .ok r1 => .ok { r1 with ents_to_add := [] }

/-- ECS.h:227-232, `Registry::add_sys<Tsys>`: the new system is constructed
first (its constructor runs `req_comp` for `reqs`), then inserted under the key
`Tsys`; `unordered_map::insert` does nothing when the key is present. -/
def add_sys {V : Type} (Tsys : Nat) (reqs : List Nat) (w : World V) : Except Err (World V) :=
  match System.construct reqs System.new w.icomp with
  | .error e => .error e
  | .ok r =>
    .ok { icomp := r.2
          reg := { w.reg with systems :=
            if (w.reg.systems.lookup Tsys).isSome then w.reg.systems
            else w.reg.systems ++ [(Tsys, r.1)] } }

/-- ECS.h:234-239, `Registry::rm_sys<Tsys>`: `find`, then `erase` of the
iterator found; erasing `end()` is undefined. -/
def Registry.rm_sys {V : Type} (Tsys : Nat) (r : Registry V) : Except Err (Registry V) :=
  match r.systems.lookup Tsys with
  | none => .error .undefined
  | some _ => .ok { r with systems := r.systems.eraseP (fun p => p.1 == Tsys) }

/-- ECS.h:241-245, `Registry::has_sys<Tsys>`. -/
def Registry.has_sys {V : Type} (Tsys : Nat) (r : Registry V) : Bool :=
  (r.systems.lookup Tsys).isSome

/-- ECS.h:247-252, `Registry::get_sys<Tsys>`: dereferencing `end()` is undefined. -/
def Registry.get_sys {V : Type} (Tsys : Nat) (r : Registry V) : Except Err System :=
  match r.systems.lookup Tsys with
  | none => .error .undefined
  | some s => .ok s

/-- ECS.h:254-294, `Registry::add_comp<Tcomp>`; `obj` is the `Tcomp` constructed
from the arguments. -/
def add_comp {V : Type} [Inhabited V] (T : Nat) (ent : Entity) (obj : V) (w : World V) :
    Except Err (World V) :=
  let g := Component.get_id T w.icomp
  let comp_id := g.1
  let ent_id := ent.get_id
  let pools :=
    if comp_id ≥ w.reg.comp_pools.length then vector_resize (comp_id + 1) none w.reg.comp_pools
    else w.reg.comp_pools
  match vector_at pools comp_id with
  | .error e => .error e
  | .ok slot =>
    let pool : Pool V := match slot with
      | none => Pool.new 100
      | some p => p
    let pool1 := if ent_id ≥ pool.get_size then pool.resize w.reg.num_ents else pool
    match pool1.set ent_id obj with
    | .error e => .error e
    | .ok pool2 =>
      match vector_at w.reg.ent_comp_signs ent_id with
      | .error e => .error e
      | .ok sg =>
        match sg.set comp_id true with
        | .error e => .error e
        | .ok sg1 =>
          .ok { icomp := g.2
                reg := { w.reg with
                  comp_pools := pools.set comp_id (some pool2)
                  ent_comp_signs := w.reg.ent_comp_signs.set ent_id sg1 } }

/-- ECS.h:296-308, `Registry::rm_comp<Tcomp>`: only the signature bit is cleared. -/
def rm_comp {V : Type} (T : Nat) (ent : Entity) (w : World V) : Except Err (World V) :=
  let g := Component.get_id T w.icomp
  match vector_at w.reg.ent_comp_signs ent.get_id with
  | .error e => .error e
  | .ok sg =>
    match sg.set g.1 false with
    | .error e => .error e
    | .ok sg1 =>
      .ok { icomp := g.2
            reg := { w.reg with ent_comp_signs := w.reg.ent_comp_signs.set ent.get_id sg1 } }

/-- ECS.h:310-316, `Registry::has_comp<Tcomp>`; the call may initialise the id
of `Tcomp`, so the state is returned too. -/
def has_comp {V : Type} (T : Nat) (ent : Entity) (w : World V) : Except Err (Bool × World V) :=
  let g := Component.get_id T w.icomp
  match vector_at w.reg.ent_comp_signs ent.get_id with
  | .error e => .error e
  | .ok sg =>
    match sg.test g.1 with
    | .error e => .error e
    | .ok b => .ok (b, { w with icomp := g.2 })

/-- ECS.h:318-324, `Registry::get_comp<Tcomp>`: the pool of `Tcomp`, then its
slot `ent_id`; no look at the signature. -/
def get_comp {V : Type} (T : Nat) (ent : Entity) (w : World V) : Except Err (V × World V) :=
  let g := Component.get_id T w.icomp
  match vector_at w.reg.comp_pools g.1 with
  | .error e => .error e
  | .ok none => .error .undefined
  | .ok (some comp_pool) =>
    match comp_pool.get ent.get_id with
    | .error e => .error e
    | .ok v => .ok (v, { w with icomp := g.2 })

/-! ## Runs of the registry API -/

/-- One call of the public API. -/
inductive Op (V : Type) where
  | create_ent
  | add_comp (T : Nat) (ent : Entity) (obj : V)
  | rm_comp (T : Nat) (ent : Entity)
  | has_comp (T : Nat) (ent : Entity)
  | get_comp (T : Nat) (ent : Entity)
  | add_sys (Tsys : Nat) (reqs : List Nat)
  | rm_sys (Tsys : Nat)
  | update

/-- The effect of one call: the next state and the entities the call returned
(one for `create_ent`, none otherwise). -/
def step {V : Type} [Inhabited V] (op : Op V) (w : World V) : Except Err (World V × List Entity) :=
  match op with
  | .create_ent =>
    let r := w.reg.create_ent
    .ok ({ w with reg := r.2 }, [r.1])
  | .add_comp T ent obj => (add_comp T ent obj w).map (fun w1 => (w1, []))
  | .rm_comp T ent => (rm_comp T ent w).map (fun w1 => (w1, []))
  | .has_comp T ent => (has_comp T ent w).map (fun r => (r.2, []))
  | .get_comp T ent => (get_comp T ent w).map (fun r => (r.2, []))
  | .add_sys Tsys reqs => (add_sys Tsys reqs w).map (fun w1 => (w1, []))
  | .rm_sys Tsys => (w.reg.rm_sys Tsys).map (fun r => ({ w with reg := r }, []))
  | .update => (w.reg.update).map (fun r => ({ w with reg := r }, []))

/-- A sequence of calls, each on the state the previous one left; the result is
the last state and the entities returned by the `create_ent` calls, in order. -/
def run {V : Type} [Inhabited V] : List (Op V) → World V → Except Err (World V × List Entity)
  | [], w => .ok (w, [])
  | op :: ops, w =>
    match step op w with
    | .error e => .error e
    | .ok r1 =>
      match run ops r1.1 with
      | .error e => .error e
      | .ok r2 => .ok (r2.1, r1.2 ++ r2.2)

/-- The run returned normally. -/
def run_ok {V : Type} [Inhabited V] (ops : List (Op V)) (w : World V) : Bool :=
  match run ops w with
  | .ok _ => true
  | .error _ => false

/-- The state a run ends in (the start state when the run fails). -/
def run_world {V : Type} [Inhabited V] (ops : List (Op V)) (w : World V) : World V :=
  match run ops w with
  | .ok r => r.1
  | .error _ => w

/-- The entities a run returns (none when the run fails). -/
def run_out {V : Type} [Inhabited V] (ops : List (Op V)) (w : World V) : List Entity :=
  match run ops w with
  | .ok r => r.2
  | .error _ => []

/-- A state some sequence of calls reaches from the program start. -/
def Reachable {V : Type} [Inhabited V] (w : World V) : Prop :=
  ∃ ops out, run ops (World.init : World V) = .ok (w, out)

/-- The member list of the system registered under `Tsys`, if any. -/
def members {V : Type} (Tsys : Nat) (r : Registry V) : Option (List Entity) :=
  (r.systems.lookup Tsys).map System.get_sys_ents

/-- The test `update` makes for entity `e` and system `S` in registry `r`:
the signature stored for `e` covers the required signature of `S`. -/
def matches_sys {V : Type} (r : Registry V) (S : System) (e : Entity) : Bool :=
  match r.ent_comp_signs[e.id]? with
  | some sg => is_interested sg S.get_comp_sign
  | none => false

/-- The member list `update` leaves in a system: the pending entities that match it appended. -/
def System.with_added {V : Type} (r : Registry V) (pend : List Entity) (p : Nat × System) :
    Nat × System :=
  (p.1, { p.2 with ents := p.2.ents ++ pend.filter (matches_sys r p.2) })

/-- The bookkeeping every reachable state keeps, with `b` the value `num_ents`
had at the last `update` (0 before the first): one signature per entity, the
pending set holds the entities `b .. num_ents - 1`, and every member list is
strictly ascending in ids below `b`. -/
def InvAt {V : Type} (b : Nat) (w : World V) : Prop :=
  w.reg.ent_comp_signs.length = w.reg.num_ents ∧
  b ≤ w.reg.num_ents ∧
  w.reg.ents_to_add = (List.range' b (w.reg.num_ents - b)).map Entity.mk ∧
  ∀ p ∈ w.reg.systems,
    p.2.ents.Pairwise (fun a c => a.id < c.id) ∧ ∀ m ∈ p.2.ents, m.id < b

/-- The call is not `update`. -/
def Op.not_update {V : Type} : Op V → Bool
  | .update => false
  | _ => true

/-- Scenario B up to the re-attach: one entity, component type 0 attached with
data 5, then removed. -/
def scenario_B_ops : List (Op Nat) :=
  [Op.create_ent, Op.add_comp 0 ⟨0⟩ 5, Op.rm_comp 0 ⟨0⟩]

/-- The state the calls of `scenario_B_ops` reach from the program start. -/
def scenario_B_world : World Nat := run_world scenario_B_ops World.init

/-- The state after re-attaching component type 0 with data 9 in `scenario_B_world`. -/
def scenario_B_readded : World Nat :=
  match add_comp 0 ⟨0⟩ 9 scenario_B_world with
  | .ok w => w
  | .error _ => World.init

/-- The state after `rm_comp<0>(entity 0)` in `scenario_B_readded`. -/
def scenario_B_removed : World Nat :=
  match rm_comp 0 ⟨0⟩ scenario_B_readded with
  | .ok w => w
  | .error _ => World.init

/-- Scenario A before `update`: three entities, component types 0 (transform)
and 1 (rigid body) on entities 0 and 1, type 0 alone on entity 2, and the system
type 7 requiring types 0 and 1 (the movement system, Systems.h:16-20). -/
def scenario_A_ops : List (Op Nat) :=
  [Op.create_ent, Op.create_ent, Op.create_ent,
   Op.add_comp 0 ⟨0⟩ 10, Op.add_comp 1 ⟨0⟩ 11,
   Op.add_comp 0 ⟨1⟩ 20, Op.add_comp 1 ⟨1⟩ 21,
   Op.add_comp 0 ⟨2⟩ 30,
   Op.add_sys 7 [0, 1]]

/-- The state the calls of `scenario_A_ops` reach from the program start. -/
def scenario_A_world : World Nat := run_world scenario_A_ops World.init

/-- The registry `update` leaves in `scenario_A_world`. -/
def scenario_A_updated : Registry Nat :=
  match scenario_A_world.reg.update with
  | .ok r => r
  | .error _ => Registry.empty

/-- A state in which system type 7, requiring component type 0, is registered
and no entity exists yet. -/
def deferred_world : World Nat := run_world [Op.add_sys 7 [0]] World.init

/-- The state reached from `deferred_world` by `create_ent` and then
`add_comp<0>` on the new entity 0, with no `update` yet. -/
def deferred_world_attached : World Nat :=
  run_world [Op.add_comp 0 ⟨0⟩ 5]
    { deferred_world with reg := deferred_world.reg.create_ent.2 }

/-- The call is `create_ent`. -/
def Op.is_create {V : Type} : Op V → Bool
  | .create_ent => true
  | _ => false

/-- Scenario C: system type 7 requires component type 0, system type 8 requires
component type 1 (disjoint signatures); entity 0 carries both; then `update()`. -/
def scenario_C_ops : List (Op Nat) :=
  [Op.add_sys 7 [0], Op.add_sys 8 [1], Op.create_ent,
   Op.add_comp 0 ⟨0⟩ 1, Op.add_comp 1 ⟨0⟩ 2, Op.update]

/-- The state the calls of `scenario_C_ops` reach from the program start. -/
def scenario_C_world : World Nat := run_world scenario_C_ops World.init

/-- The call is not `rm_comp`. -/
def Op.not_rm_comp {V : Type} : Op V → Bool
  | .rm_comp _ _ => false
  | _ => true

/-- Every member of every system has a stored signature that covers the
system's required signature. -/
def Matched {V : Type} (w : World V) : Prop :=
  ∀ p ∈ w.reg.systems, ∀ e ∈ p.2.get_sys_ents, matches_sys w.reg p.2 e = true

/-- A run that removes a component from a member: entity 0 gets component
type 0, system type 7 requires it, `update()` makes entity 0 a member, then
`rm_comp<0>(entity 0)` and a second `update()`. -/
def stale_member_ops : List (Op Nat) :=
  [Op.create_ent, Op.add_comp 0 ⟨0⟩ 5, Op.add_sys 7 [0], Op.update,
   Op.rm_comp 0 ⟨0⟩, Op.update]

/-- The state the calls of `stale_member_ops` reach from the program start. -/
def stale_member_world : World Nat := run_world stale_member_ops World.init

/-- The id state after `get_id` has been called for the types of `Ts`, in order,
starting from the state `st`. -/
def Icomp.calls (Ts : List Nat) (st : Icomp) : Icomp :=
  Ts.foldl (fun s T => (Component.get_id T s).2) st

/-- The bookkeeping of the id state after calls for the types `Ts`: the counter
is the number of initialised ids, the initialised types are those of `Ts`, each
once, and their ids are distinct and below the counter. -/
def Icomp.WF (st : Icomp) (Ts : List Nat) : Prop :=
  st.next_id = st.ids.length ∧
  (st.ids.map Prod.fst).Nodup ∧
  (∀ T, T ∈ st.ids.map Prod.fst ↔ T ∈ Ts) ∧
  (∀ p ∈ st.ids, p.2 < st.next_id) ∧
  (st.ids.map Prod.snd).Nodup

/-- Three `create_ent` calls with `add_sys`, `add_comp`, `update`, `rm_comp` and
`rm_sys` calls in between. -/
def interleaved_ops : List (Op Nat) :=
  [Op.create_ent, Op.add_sys 7 [0], Op.add_comp 0 ⟨0⟩ 1, Op.update, Op.create_ent,
   Op.rm_comp 0 ⟨0⟩, Op.rm_sys 7, Op.create_ent]

/-- One entity, then `has_comp` calls for the component types 0 .. 31, which
give these 32 types the ids 0 .. 31. -/
def full_ops : List (Op Nat) :=
  Op.create_ent :: (List.range 32).map (fun T => Op.has_comp T ⟨0⟩)

/-- The state the calls of `full_ops` reach: 32 component types have ids. -/
def full_world : World Nat := run_world full_ops World.init

/-- The pool vector after the resize step of `add_comp` for component id `c`
(ECS.h:261-264). -/
def add_comp_pools {V : Type} (c : Nat) (pools : List (Option (Pool V))) :
    List (Option (Pool V)) :=
  if c ≥ pools.length then vector_resize (c + 1) none pools else pools

/-- The pool `add_comp` writes into (ECS.h:267-280): the pool found in the slot,
or a new `Pool()` for a null slot, resized to `num_ents` when `ent_id` is not
below its size. -/
def add_comp_pool {V : Type} [Inhabited V] (slot : Option (Pool V)) (ent_id num_ents : Nat) :
    Pool V :=
  let pool : Pool V := match slot with
    | none => Pool.new 100
    | some p => p
  if ent_id ≥ pool.get_size then pool.resize num_ents else pool

/-- The entities 0 .. 110 created: the id 110 is beyond the initial pool size 100. -/
def growth_ops : List (Op Nat) := List.replicate 111 Op.create_ent

/-- The state the calls of `growth_ops` reach from the program start. -/
def growth_world : World Nat := run_world growth_ops World.init

/-- The state after `add_comp<0>(entity 110, 6)` in `growth_world`. -/
def growth_attached : World Nat :=
  match add_comp 0 ⟨110⟩ 6 growth_world with
  | .ok w => w
  | .error _ => World.init

/-- Two entities, component type 0 attached to entity 0 only. -/
def never_attached_world : World Nat :=
  run_world [Op.create_ent, Op.create_ent, Op.add_comp 0 ⟨0⟩ 5] World.init

/-- One entity and nothing else. -/
def scenario_B_created : World Nat := run_world [Op.create_ent] World.init

/-- The state after `add_comp<0>(entity 0, 5)` in `scenario_B_created`. -/
def scenario_B_attached : World Nat :=
  match add_comp 0 ⟨0⟩ 5 scenario_B_created with
  | .ok w => w
  | .error _ => World.init

/-- The state after `rm_comp<0>(entity 0)` in `scenario_B_attached`. -/
def scenario_B_detached : World Nat :=
  match rm_comp 0 ⟨0⟩ scenario_B_attached with
  | .ok w => w
  | .error _ => World.init

/-- The ids handed out so far are all below the counter. -/
def Icomp.Bounded (ic : Icomp) : Prop := ∀ p ∈ ic.ids, p.2 < ic.next_id

/-- The registry after `rm_sys<7>` in `scenario_C_world`, where the system types
7 and 8 are registered and entity 0 is a member of both. -/
def two_systems_removed : Registry Nat :=
  match scenario_C_world.reg.rm_sys 7 with
  | .ok r => r
  | .error _ => Registry.empty

/-- The state after `add_sys<7>` with other requirements (component type 1) in
`scenario_C_world`, where system type 7 is registered already. -/
def readded_world : World Nat :=
  match add_sys 7 [1] scenario_C_world with
  | .ok w => w
  | .error _ => World.init

/-- The state after `add_sys<9>` requiring component type 0 in
`scenario_C_world`, where system type 9 is not registered. -/
def added_world : World Nat :=
  match add_sys 9 [0] scenario_C_world with
  | .ok w => w
  | .error _ => World.init

/-- Entity 0 with component type 0; `update()`; only then system type 7,
requiring component type 0, is registered; then a second entity with the
component and another `update()`. -/
def late_system_before : List (Op Nat) := [Op.create_ent, Op.add_comp 0 ⟨0⟩ 5]

/-- The calls after the first `update()` of the late-system run. -/
def late_system_after : List (Op Nat) :=
  [Op.add_sys 7 [0], Op.create_ent, Op.add_comp 0 ⟨1⟩ 6, Op.update]

/-- The state before the first `update()` of the late-system run. -/
def late_system_w1 : World Nat := run_world late_system_before World.init

/-- The state right after the first `update()` of the late-system run. -/
def late_system_w2 : World Nat := run_world [Op.update] late_system_w1

/-- The final state of the late-system run. -/
def late_system_w3 : World Nat := run_world late_system_after late_system_w2

/-- A set signature bit has a pool slot behind it: when bit `c` of the signature
of entity `j` is set, the pool of component id `c` exists and has slot `j`. -/
def BitPool {V : Type} (w : World V) : Prop :=
  ∀ (j : Nat) (sg : Signature) (c : Nat),
    w.reg.ent_comp_signs[j]? = some sg → sg.bits.testBit c = true →
    ∃ p : Pool V, w.reg.comp_pools[c]? = some (some p) ∧ j < p.get_size

/-- The entities 0 .. 110 created and component type 0 attached to entity 0 with
data 5: the pool of type 0 has its initial 100 slots. -/
def frame_world : World Nat :=
  run_world (growth_ops ++ [Op.add_comp 0 ⟨0⟩ 5]) World.init

/-- The state after `add_comp<0>(entity 110, 6)` in `frame_world`: the call
resizes the pool of type 0 to 111 slots. -/
def frame_after : World Nat :=
  match add_comp 0 ⟨110⟩ 6 frame_world with
  | .ok w => w
  | .error _ => World.init

/-! ## Basic facts: signatures, ids, vectors -/

theorem Signature.ext_bits {a b : Signature} (h : a.bits = b.bits) : a = b := by
  cases a; cases b; simp at h; subst h; rfl

theorem Signature.set_ok (s : Signature) {pos : Nat} (val : Bool) (h : pos < MAX_COMPS) :
    ∃ sg, s.set pos val = .ok sg := by
  unfold Signature.set
  rw [dif_pos h]
  cases val <;> simp

theorem Signature.set_lt {s sg : Signature} {pos : Nat} {val : Bool}
    (h : s.set pos val = .ok sg) : pos < MAX_COMPS := by
  unfold Signature.set at h
  by_cases hp : pos < MAX_COMPS
  · exact hp
  · rw [dif_neg hp] at h; cases h

theorem Signature.set_true_bits {s sg : Signature} {pos : Nat}
    (h : s.set pos true = .ok sg) : sg.bits = s.bits ||| (1 <<< pos) := by
  unfold Signature.set at h
  rw [dif_pos (Signature.set_lt h)] at h
  simp at h
  rw [← h]

theorem Signature.set_false_bits {s sg : Signature} {pos : Nat}
    (h : s.set pos false = .ok sg) :
    sg.bits = s.bits &&& ((2 ^ MAX_COMPS - 1) ^^^ (1 <<< pos)) := by
  unfold Signature.set at h
  rw [dif_pos (Signature.set_lt h)] at h
  simp at h
  rw [← h]

theorem Signature.testBit_set_true {s sg : Signature} {pos : Nat}
    (h : s.set pos true = .ok sg) (i : Nat) :
    sg.bits.testBit i = (s.bits.testBit i || decide (i = pos)) := by
  rw [Signature.set_true_bits h, Nat.testBit_or, Nat.one_shiftLeft, Nat.testBit_two_pow]
  by_cases hi : i = pos
  · subst hi; simp
  · have : ¬ pos = i := fun h => hi h.symm
    simp [hi, this]

theorem Signature.testBit_set_false {s sg : Signature} {pos : Nat}
    (h : s.set pos false = .ok sg) (i : Nat) :
    sg.bits.testBit i = (s.bits.testBit i && !decide (i = pos)) := by
  rw [Signature.set_false_bits h, Nat.testBit_and, Nat.testBit_xor,
    Nat.testBit_two_pow_sub_one, Nat.one_shiftLeft, Nat.testBit_two_pow]
  by_cases hi : i = pos
  · subst hi; simp [Signature.set_lt h]
  · have hne : ¬ pos = i := fun h => hi h.symm
    by_cases hlt : i < MAX_COMPS
    · simp [hi, hne, hlt]
    · have : s.bits.testBit i = false :=
        Nat.testBit_lt_two_pow (Nat.lt_of_lt_of_le s.lt
          (Nat.pow_le_pow_right (by decide) (Nat.le_of_not_lt hlt)))
      simp [this]

theorem Signature.test_set_true {s sg : Signature} {pos : Nat}
    (h : s.set pos true = .ok sg) : sg.test pos = .ok true := by
  unfold Signature.test
  rw [if_pos (Signature.set_lt h), Signature.testBit_set_true h]
  simp

theorem Signature.test_set_false {s sg : Signature} {pos : Nat}
    (h : s.set pos false = .ok sg) : sg.test pos = .ok false := by
  unfold Signature.test
  rw [if_pos (Signature.set_lt h), Signature.testBit_set_false h]
  simp

theorem Signature.set_false_of_clear {s : Signature} {pos : Nat}
    (hp : pos < MAX_COMPS) (h : s.bits.testBit pos = false) : s.set pos false = .ok s := by
  obtain ⟨sg, hsg⟩ := Signature.set_ok s false hp
  rw [hsg]
  congr 1
  apply Signature.ext_bits
  apply Nat.eq_of_testBit_eq
  intro i
  rw [Signature.testBit_set_false hsg]
  by_cases hi : i = pos
  · subst hi; simp [h]
  · simp [hi]

theorem Signature.set_false_twice {s sg : Signature} {pos : Nat}
    (h : s.set pos false = .ok sg) : sg.set pos false = .ok sg := by
  apply Signature.set_false_of_clear (Signature.set_lt h)
  rw [Signature.testBit_set_false h]
  simp

theorem Component.get_id_twice (T : Nat) (st : Icomp) :
    Component.get_id T (Component.get_id T st).2 = Component.get_id T st := by
  unfold Component.get_id
  cases h : st.ids.lookup T with
  | some id => simp [h]
  | none => simp [List.lookup]

theorem vector_at_eq_ok {α : Type} {xs : List α} {i : Nat} {x : α} :
    vector_at xs i = .ok x ↔ xs[i]? = some x := by
  unfold vector_at
  cases h : xs[i]? <;> simp

theorem vector_at_lt {α : Type} {xs : List α} {i : Nat} {x : α}
    (h : vector_at xs i = .ok x) : i < xs.length := by
  rw [vector_at_eq_ok] at h
  exact (List.getElem?_eq_some_iff.mp h).1

theorem vector_at_of_lt {α : Type} {xs : List α} {i : Nat} (h : i < xs.length) :
    ∃ x, vector_at xs i = .ok x :=
  ⟨xs[i], vector_at_eq_ok.mpr (List.getElem?_eq_getElem h)⟩

theorem vector_at_set_self {α : Type} {xs : List α} {i : Nat} (a : α) (h : i < xs.length) :
    vector_at (xs.set i a) i = .ok a :=
  vector_at_eq_ok.mpr (List.getElem?_set_self h)

theorem vector_resize_length {α : Type} (n : Nat) (d : α) (xs : List α) :
    (vector_resize n d xs).length = n := by
  unfold vector_resize
  rw [List.length_append, List.length_take, List.length_replicate]
  omega

/-! ## What each call does to the state -/

/-- The pool vector after the resize step of `add_comp` (ECS.h:261-264). -/
theorem add_comp_pools_lt {V : Type} (comp_id : Nat) (pools : List (Option (Pool V))) :
    comp_id < (if comp_id ≥ pools.length then vector_resize (comp_id + 1) none pools
      else pools).length := by
  split
  · rw [vector_resize_length]; omega
  · omega

theorem Pool.set_inv {V : Type} {p p2 : Pool V} {idx : Nat} {obj : V}
    (h : p.set idx obj = .ok p2) : idx < p.data.length ∧ p2 = ⟨p.data.set idx obj⟩ := by
  unfold Pool.set at h
  by_cases hlt : idx < p.data.length
  · rw [if_pos hlt] at h
    cases h
    exact ⟨hlt, rfl⟩
  · rw [if_neg hlt] at h
    cases h

theorem add_comp_inv {V : Type} [Inhabited V] {T : Nat} {e : Entity} {obj : V} {w w1 : World V}
    (h : add_comp T e obj w = .ok w1) :
    ∃ (pools : List (Option (Pool V))) (data : List V) (sg sg1 : Signature),
      (Component.get_id T w.icomp).1 < pools.length ∧ e.id < data.length ∧
      vector_at w.reg.ent_comp_signs e.id = .ok sg ∧
      sg.set (Component.get_id T w.icomp).1 true = .ok sg1 ∧
      w1 = { icomp := (Component.get_id T w.icomp).2
             reg := { w.reg with
               comp_pools := pools.set (Component.get_id T w.icomp).1 (some ⟨data.set e.id obj⟩)
               ent_comp_signs := w.reg.ent_comp_signs.set e.id sg1 } } := by
  unfold add_comp at h
  simp only at h
  split at h
  · cases h
  · rename_i slot hslot
    split at h
    · cases h
    · rename_i pool2 hset
      split at h
      · cases h
      · rename_i sg hsg
        split at h
        · cases h
        · rename_i sg1 hsg1
          obtain ⟨hlt, rfl⟩ := Pool.set_inv hset
          cases h
          exact ⟨_, _, sg, sg1, vector_at_lt hslot, hlt, hsg, hsg1, rfl⟩

theorem rm_comp_inv {V : Type} {T : Nat} {e : Entity} {w w1 : World V}
    (h : rm_comp T e w = .ok w1) :
    ∃ sg sg1 : Signature,
      vector_at w.reg.ent_comp_signs e.id = .ok sg ∧
      sg.set (Component.get_id T w.icomp).1 false = .ok sg1 ∧
      w1 = { icomp := (Component.get_id T w.icomp).2
             reg := { w.reg with ent_comp_signs := w.reg.ent_comp_signs.set e.id sg1 } } := by
  unfold rm_comp at h
  simp only at h
  split at h
  · cases h
  · rename_i sg hsg
    split at h
    · cases h
    · rename_i sg1 hsg1
      cases h
      exact ⟨sg, sg1, hsg, hsg1, rfl⟩

theorem has_comp_inv {V : Type} {T : Nat} {e : Entity} {w : World V} {r : Bool × World V}
    (h : has_comp T e w = .ok r) :
    ∃ sg : Signature, vector_at w.reg.ent_comp_signs e.id = .ok sg ∧
      sg.test (Component.get_id T w.icomp).1 = .ok r.1 ∧
      r.2 = { w with icomp := (Component.get_id T w.icomp).2 } := by
  unfold has_comp at h
  simp only at h
  split at h
  · cases h
  · rename_i sg hsg
    split at h
    · cases h
    · rename_i b hb
      cases h
      exact ⟨sg, hsg, hb, rfl⟩

theorem get_comp_inv {V : Type} {T : Nat} {e : Entity} {w : World V} {r : V × World V}
    (h : get_comp T e w = .ok r) :
    r.2 = { w with icomp := (Component.get_id T w.icomp).2 } := by
  unfold get_comp at h
  simp only at h
  split at h
  · cases h
  · cases h
  · split at h
    · cases h
    · cases h
      rfl

theorem has_comp_eval {V : Type} {T : Nat} {e : Entity} {w : World V} {sg : Signature} {b : Bool}
    (hid : Component.get_id T w.icomp = ((Component.get_id T w.icomp).1, w.icomp))
    (hsg : vector_at w.reg.ent_comp_signs e.id = .ok sg)
    (hb : sg.test (Component.get_id T w.icomp).1 = .ok b) :
    has_comp T e w = .ok (b, w) := by
  unfold has_comp
  simp only [Entity.get_id, hsg, hb]
  rw [hid]

/-- After a successful `add_comp<T>(e, obj)`, `has_comp<T>(e)` and `get_comp<T>(e)`
return `true` and `obj` and leave the state as it is. -/
theorem add_comp_post {V : Type} [Inhabited V] {T : Nat} {e : Entity} {obj : V} {w w1 : World V}
    (h : add_comp T e obj w = .ok w1) :
    has_comp T e w1 = .ok (true, w1) ∧ get_comp T e w1 = .ok (obj, w1) := by
  obtain ⟨pools, data, sg, sg1, hp, hd, hsg, hsg1, rfl⟩ := add_comp_inv h
  have hid := Component.get_id_twice T w.icomp
  constructor
  · apply has_comp_eval
    · simp only [hid]
    · exact vector_at_set_self sg1 (vector_at_lt hsg)
    · simp only [hid]
      exact Signature.test_set_true hsg1
  · unfold get_comp
    simp only [hid, Entity.get_id, vector_at_set_self _ hp, Pool.get]
    rw [vector_at_set_self obj hd]

/-! ## The loop of `update` -/

theorem matches_sys_congr {V : Type} {r r1 : Registry V} {S S1 : System}
    (h1 : r1.ent_comp_signs = r.ent_comp_signs) (h2 : S1.comp_sign = S.comp_sign) :
    matches_sys r1 S1 = matches_sys r S := by
  funext e
  simp only [matches_sys, System.get_comp_sign, h1, h2]

theorem matches_sys_systems {V : Type} (r : Registry V) (ys : List (Nat × System))
    (S : System) (ents : List Entity) :
    matches_sys { r with systems := ys } { comp_sign := S.comp_sign, ents := ents } =
      matches_sys r S :=
  matches_sys_congr rfl rfl

theorem add_ent_to_syss_inv {V : Type} {e : Entity} {r r1 : Registry V}
    (h : r.add_ent_to_syss e = .ok r1) :
    ∃ sg, r.ent_comp_signs[e.id]? = some sg ∧
      r1 = { r with systems := r.systems.map (fun system =>
        if is_interested sg system.2.get_comp_sign then
          (system.1, system.2.add_ent_to_sys e)
        else system) } := by
  unfold Registry.add_ent_to_syss at h
  split at h
  · cases h
  · rename_i sg hsg
    cases h
    exact ⟨sg, vector_at_eq_ok.mp hsg, rfl⟩

theorem add_all_spec {V : Type} (pend : List Entity) :
    ∀ (r r1 : Registry V), Registry.add_all pend r = .ok r1 →
      r1 = { r with systems := r.systems.map (System.with_added r pend) } := by
  induction pend with
  | nil =>
    intro r r1 h
    simp only [Registry.add_all] at h
    cases h
    have : (System.with_added r ([] : List Entity)) = id := by
      funext p
      simp [System.with_added]
    rw [this, List.map_id]
  | cons e rest ih =>
    intro r r1 h
    simp only [Registry.add_all] at h
    split at h
    · cases h
    · rename_i r2 h2
      obtain ⟨sg, hsg, rfl⟩ := add_ent_to_syss_inv h2
      rw [ih _ _ h]
      simp only [List.map_map]
      congr 1
      apply List.map_congr_left
      intro p _
      obtain ⟨k, S⟩ := p
      have he : matches_sys r S e = is_interested sg S.get_comp_sign := by
        simp only [matches_sys, hsg]
      simp only [Function.comp]
      by_cases hi : is_interested sg S.get_comp_sign = true
      · rw [if_pos hi]
        simp only [System.with_added, List.filter_cons, he, hi, if_true]
        simp only [System.add_ent_to_sys, List.append_assoc, List.singleton_append]
        rw [matches_sys_systems]
      · rw [if_neg hi]
        simp only [System.with_added, List.filter_cons, he, hi]
        simp only [Bool.false_eq_true, if_false]
        rw [matches_sys_systems]

theorem add_all_ok {V : Type} (pend : List Entity) :
    ∀ (r : Registry V), (∀ e ∈ pend, e.id < r.ent_comp_signs.length) →
      ∃ r1, Registry.add_all pend r = .ok r1 := by
  induction pend with
  | nil => intro r _; exact ⟨r, rfl⟩
  | cons e rest ih =>
    intro r h
    obtain ⟨sg, hsg⟩ := vector_at_of_lt (h e (List.mem_cons_self _ _))
    simp only [Registry.add_all, Registry.add_ent_to_syss, Entity.get_id, hsg]
    apply ih
    intro x hx
    exact h x (List.mem_cons_of_mem _ hx)

/-! ## Invariants of runs -/

theorem set_insert_last (e : Entity) (xs : List Entity) (h : ∀ x ∈ xs, x.id < e.id) :
    set_insert e xs = xs ++ [e] := by
  induction xs with
  | nil => rfl
  | cons x rest ih =>
    have hx : x.id < e.id := h x (List.mem_cons_self _ _)
    have hnot : ¬ e.id < x.id := by omega
    simp only [set_insert, if_neg hnot, if_pos hx, List.cons_append]
    rw [ih (fun y hy => h y (List.mem_cons_of_mem _ hy))]

theorem System.req_comp_ents {T : Nat} {s : System} {ic : Icomp} {r : System × Icomp}
    (h : System.req_comp T s ic = .ok r) : r.1.ents = s.ents := by
  unfold System.req_comp at h
  simp only at h
  split at h
  · cases h; rfl
  · cases h

theorem System.construct_ents (reqs : List Nat) :
    ∀ (s : System) (ic : Icomp) (r : System × Icomp),
      System.construct reqs s ic = .ok r → r.1.ents = s.ents := by
  induction reqs with
  | nil => intro s ic r h; simp only [System.construct] at h; cases h; rfl
  | cons T Ts ih =>
    intro s ic r h
    simp only [System.construct] at h
    split at h
    · rename_i r1 h1
      rw [ih _ _ _ h, System.req_comp_ents h1]
    · cases h

theorem add_sys_inv {V : Type} {Tsys : Nat} {reqs : List Nat} {w w1 : World V}
    (h : add_sys Tsys reqs w = .ok w1) :
    ∃ r : System × Icomp, System.construct reqs System.new w.icomp = .ok r ∧
      w1 = { icomp := r.2
             reg := { w.reg with systems :=
               if (w.reg.systems.lookup Tsys).isSome then w.reg.systems
               else w.reg.systems ++ [(Tsys, r.1)] } } := by
  unfold add_sys at h
  split at h
  · cases h
  · rename_i r hr
    cases h
    exact ⟨r, hr, rfl⟩

theorem rm_sys_inv {V : Type} {Tsys : Nat} {r r1 : Registry V}
    (h : r.rm_sys Tsys = .ok r1) :
    (r.systems.lookup Tsys).isSome ∧
      r1 = { r with systems := r.systems.eraseP (fun p => p.1 == Tsys) } := by
  unfold Registry.rm_sys at h
  split at h
  · cases h
  · rename_i s hs
    cases h
    exact ⟨by simp [hs], rfl⟩

theorem update_inv {V : Type} {r r1 : Registry V} (h : r.update = .ok r1) :
    r1 = { r with systems := r.systems.map (System.with_added r r.ents_to_add)
                  ents_to_add := [] } := by
  unfold Registry.update at h
  split at h
  · cases h
  · rename_i r2 h2
    cases h
    rw [add_all_spec _ _ _ h2]

theorem Except.map_eq_ok {ε α β : Type} {f : α → β} {x : Except ε α} {b : β}
    (h : x.map f = .ok b) : ∃ a, x = .ok a ∧ f a = b := by
  cases x with
  | error e => cases h
  | ok a => exact ⟨a, rfl, by cases h; rfl⟩

theorem step_update_inv {V : Type} [Inhabited V] {w w1 : World V} {out : List Entity}
    (h : step Op.update w = .ok (w1, out)) :
    out = [] ∧
    w1 = { w with reg := { w.reg with
      systems := w.reg.systems.map (System.with_added w.reg w.reg.ents_to_add)
      ents_to_add := [] } } := by
  simp only [step] at h
  obtain ⟨r, hr, hw⟩ := Except.map_eq_ok h
  cases hw
  exact ⟨rfl, by rw [update_inv hr]⟩

/-- A call other than `update` and `create_ent` returns no entity and leaves
the entity counter, the pending set and the number of signatures as they are. -/
theorem step_counts {V : Type} [Inhabited V] {op : Op V} {w w1 : World V} {out : List Entity}
    (h : step op w = .ok (w1, out)) (hu : op.not_update = true) :
    (op = Op.create_ent ∧ w1 = { w with reg := w.reg.create_ent.2 } ∧
      out = [⟨w.reg.num_ents⟩]) ∨
    (op ≠ Op.create_ent ∧ out = [] ∧ w1.reg.num_ents = w.reg.num_ents ∧
      w1.reg.ents_to_add = w.reg.ents_to_add ∧
      w1.reg.ent_comp_signs.length = w.reg.ent_comp_signs.length) := by
  cases op with
  | create_ent =>
    left
    simp only [step] at h
    cases h
    exact ⟨rfl, rfl, rfl⟩
  | add_comp T e obj =>
    right
    simp only [step] at h
    obtain ⟨w2, h2, hw⟩ := Except.map_eq_ok h
    cases hw
    obtain ⟨pools, data, sg, sg1, -, -, -, -, rfl⟩ := add_comp_inv h2
    exact ⟨by simp, rfl, rfl, rfl, by simp⟩
  | rm_comp T e =>
    right
    simp only [step] at h
    obtain ⟨w2, h2, hw⟩ := Except.map_eq_ok h
    cases hw
    obtain ⟨sg, sg1, -, -, rfl⟩ := rm_comp_inv h2
    exact ⟨by simp, rfl, rfl, rfl, by simp⟩
  | has_comp T e =>
    right
    simp only [step] at h
    obtain ⟨r, h2, hw⟩ := Except.map_eq_ok h
    cases hw
    obtain ⟨sg, -, -, hr⟩ := has_comp_inv h2
    rw [hr]
    exact ⟨by simp, rfl, rfl, rfl, rfl⟩
  | get_comp T e =>
    right
    simp only [step] at h
    obtain ⟨r, h2, hw⟩ := Except.map_eq_ok h
    cases hw
    rw [get_comp_inv h2]
    exact ⟨by simp, rfl, rfl, rfl, rfl⟩
  | add_sys Tsys reqs =>
    right
    simp only [step] at h
    obtain ⟨w2, h2, hw⟩ := Except.map_eq_ok h
    cases hw
    obtain ⟨r, -, rfl⟩ := add_sys_inv h2
    exact ⟨by simp, rfl, rfl, rfl, rfl⟩
  | rm_sys Tsys =>
    right
    simp only [step] at h
    obtain ⟨r, h2, hw⟩ := Except.map_eq_ok h
    cases hw
    obtain ⟨-, rfl⟩ := rm_sys_inv h2
    exact ⟨by simp, rfl, rfl, rfl, rfl⟩
  | update => cases hu

/-- A call other than `update` leaves every system it keeps as it was; a
system it adds has no members. -/
theorem step_systems {V : Type} [Inhabited V] {op : Op V} {w w1 : World V} {out : List Entity}
    (h : step op w = .ok (w1, out)) (hu : op.not_update = true) :
    ∀ p ∈ w1.reg.systems, p ∈ w.reg.systems ∨ p.2.ents = [] := by
  intro p hp
  cases op with
  | create_ent =>
    simp only [step] at h
    cases h
    exact Or.inl hp
  | add_comp T e obj =>
    simp only [step] at h
    obtain ⟨w2, h2, hw⟩ := Except.map_eq_ok h
    cases hw
    obtain ⟨pools, data, sg, sg1, -, -, -, -, rfl⟩ := add_comp_inv h2
    exact Or.inl hp
  | rm_comp T e =>
    simp only [step] at h
    obtain ⟨w2, h2, hw⟩ := Except.map_eq_ok h
    cases hw
    obtain ⟨sg, sg1, -, -, rfl⟩ := rm_comp_inv h2
    exact Or.inl hp
  | has_comp T e =>
    simp only [step] at h
    obtain ⟨r, h2, hw⟩ := Except.map_eq_ok h
    cases hw
    obtain ⟨sg, -, -, hr⟩ := has_comp_inv h2
    rw [hr] at hp
    exact Or.inl hp
  | get_comp T e =>
    simp only [step] at h
    obtain ⟨r, h2, hw⟩ := Except.map_eq_ok h
    cases hw
    rw [get_comp_inv h2] at hp
    exact Or.inl hp
  | add_sys Tsys reqs =>
    simp only [step] at h
    obtain ⟨w2, h2, hw⟩ := Except.map_eq_ok h
    cases hw
    obtain ⟨r, hr, rfl⟩ := add_sys_inv h2
    simp only at hp
    split at hp
    · exact Or.inl hp
    · rcases List.mem_append.mp hp with hp1 | hp1
      · exact Or.inl hp1
      · right
        rw [List.mem_singleton.mp hp1]
        exact System.construct_ents reqs _ _ _ hr
  | rm_sys Tsys =>
    simp only [step] at h
    obtain ⟨r, h2, hw⟩ := Except.map_eq_ok h
    cases hw
    obtain ⟨-, rfl⟩ := rm_sys_inv h2
    exact Or.inl (List.mem_of_mem_eraseP hp)
  | update => cases hu

theorem invAt_init {V : Type} : InvAt 0 (World.init : World V) := by
  refine ⟨rfl, Nat.le_refl _, rfl, ?_⟩
  intro p hp
  cases hp

theorem invAt_step {V : Type} [Inhabited V] {b : Nat} {op : Op V} {w w1 : World V}
    {out : List Entity} (hi : InvAt b w) (h : step op w = .ok (w1, out))
    (hu : op.not_update = true) : InvAt b w1 := by
  obtain ⟨hlen, hb, hpend, hsys⟩ := hi
  have hsys1 : ∀ p ∈ w1.reg.systems,
      p.2.ents.Pairwise (fun a c => a.id < c.id) ∧ ∀ m ∈ p.2.ents, m.id < b := by
    intro p hp
    rcases step_systems h hu p hp with h1 | h1
    · exact hsys p h1
    · rw [h1]
      exact ⟨List.Pairwise.nil, fun m hm => by cases hm⟩
  rcases step_counts h hu with ⟨-, rfl, -⟩ | ⟨-, -, hn, hp, hl⟩
  · refine ⟨?_, ?_, ?_, hsys1⟩
    · simp only [Registry.create_ent]
      rw [if_pos (by omega), vector_resize_length]
    · simp only [Registry.create_ent]
      omega
    · simp only [Registry.create_ent]
      rw [hpend, set_insert_last]
      · have : w.reg.num_ents + 1 - b = (w.reg.num_ents - b) + 1 := by omega
        rw [this, List.range'_concat, List.map_append]
        simp only [List.map_cons, List.map_nil, Nat.one_mul]
        congr 3
        omega
      · intro x hx
        obtain ⟨i, hi, rfl⟩ := List.mem_map.mp hx
        have := List.mem_range'_1.mp hi
        show i < w.reg.num_ents
        omega
  · exact ⟨by rw [hl, hn, hlen], by rw [hn]; exact hb, by rw [hp, hn, hpend], hsys1⟩

theorem invAt_update {V : Type} [Inhabited V] {b : Nat} {w w1 : World V}
    {out : List Entity} (hi : InvAt b w) (h : step Op.update w = .ok (w1, out)) :
    InvAt w.reg.num_ents w1 ∧ w1.reg.num_ents = w.reg.num_ents := by
  obtain ⟨hlen, hb, hpend, hsys⟩ := hi
  obtain ⟨-, rfl⟩ := step_update_inv h
  refine ⟨⟨hlen, Nat.le_refl _, ?_, ?_⟩, rfl⟩
  · simp
  · intro p hp
    simp only at hp
    obtain ⟨q, hq, rfl⟩ := List.mem_map.mp hp
    obtain ⟨hq1, hq2⟩ := hsys q hq
    have hmem : ∀ c ∈ w.reg.ents_to_add.filter (matches_sys w.reg q.2),
        b ≤ c.id ∧ c.id < w.reg.num_ents := by
      intro c hc
      have hc1 := (List.mem_filter.mp hc).1
      rw [hpend] at hc1
      obtain ⟨i, hi, rfl⟩ := List.mem_map.mp hc1
      have := List.mem_range'_1.mp hi
      exact ⟨this.1, by show i < w.reg.num_ents; omega⟩
    constructor
    · simp only [System.with_added]
      rw [List.pairwise_append]
      refine ⟨hq1, ?_, ?_⟩
      · apply List.Pairwise.filter
        rw [hpend, List.pairwise_map]
        exact List.pairwise_lt_range' _ _
      · intro a ha c hc
        have := hq2 a ha
        have := (hmem c hc).1
        omega
    · intro m hm
      simp only [System.with_added] at hm
      rcases List.mem_append.mp hm with h1 | h1
      · have := hq2 m h1
        omega
      · exact (hmem m h1).2

/-- Every call keeps the bookkeeping, for some boundary `b`. -/
theorem invAt_step_any {V : Type} [Inhabited V] {b : Nat} {op : Op V} {w w1 : World V}
    {out : List Entity} (hi : InvAt b w) (h : step op w = .ok (w1, out)) :
    ∃ b1, InvAt b1 w1 := by
  by_cases hu : op.not_update = true
  · exact ⟨b, invAt_step hi h hu⟩
  · cases op <;> simp [Op.not_update] at hu
    exact ⟨_, (invAt_update hi h).1⟩

theorem run_cons_inv {V : Type} [Inhabited V] {op : Op V} {ops : List (Op V)} {w w2 : World V}
    {out : List Entity} (h : run (op :: ops) w = .ok (w2, out)) :
    ∃ w1 o1 o2, step op w = .ok (w1, o1) ∧ run ops w1 = .ok (w2, o2) ∧ out = o1 ++ o2 := by
  simp only [run] at h
  split at h
  · cases h
  · rename_i r1 h1
    split at h
    · cases h
    · rename_i r2 h2
      cases h
      exact ⟨r1.1, r1.2, r2.2, h1, h2, rfl⟩

theorem run_append {V : Type} [Inhabited V] (ops1 : List (Op V)) :
    ∀ (ops2 : List (Op V)) (w w1 w2 : World V) (o1 o2 : List Entity),
      run ops1 w = .ok (w1, o1) → run ops2 w1 = .ok (w2, o2) →
      run (ops1 ++ ops2) w = .ok (w2, o1 ++ o2) := by
  induction ops1 with
  | nil =>
    intro ops2 w w1 w2 o1 o2 h1 h2
    simp only [run] at h1
    cases h1
    simpa using h2
  | cons op ops ih =>
    intro ops2 w w1 w2 o1 o2 h1 h2
    obtain ⟨wa, oa, ob, hs, hr, rfl⟩ := run_cons_inv h1
    have := ih ops2 wa w1 w2 ob o2 hr h2
    show run (op :: (ops ++ ops2)) w = _
    simp only [run, hs, this, List.append_assoc]

theorem run_inv {V : Type} [Inhabited V] (ops : List (Op V)) :
    ∀ (w w1 : World V) (out : List Entity), (∃ b, InvAt b w) →
      run ops w = .ok (w1, out) → ∃ b, InvAt b w1 := by
  induction ops with
  | nil =>
    intro w w1 out hi h
    simp only [run] at h
    cases h
    exact hi
  | cons op ops ih =>
    intro w w1 out hi h
    obtain ⟨wa, oa, ob, hs, hr, -⟩ := run_cons_inv h
    obtain ⟨b, hb⟩ := hi
    exact ih wa w1 ob (invAt_step_any hb hs) hr

theorem reachable_inv {V : Type} [Inhabited V] {w : World V} (h : Reachable w) :
    ∃ b, InvAt b w := by
  obtain ⟨ops, out, hr⟩ := h
  exact run_inv ops _ _ _ ⟨0, invAt_init⟩ hr

theorem reachable_init {V : Type} [Inhabited V] : Reachable (World.init : World V) :=
  ⟨[], [], rfl⟩

theorem reachable_step {V : Type} [Inhabited V] {op : Op V} {w w1 : World V}
    {out : List Entity} (hr : Reachable w) (h : step op w = .ok (w1, out)) : Reachable w1 := by
  obtain ⟨ops, o, hrun⟩ := hr
  refine ⟨ops ++ [op], o ++ (out ++ []), run_append ops [op] _ _ _ _ _ hrun ?_⟩
  simp only [run, h]

/-! ## C1: attach, then query -/

/-- The write `comp_pool->set(ent_id, new_comp)` of `add_comp` (ECS.h:277-286) is
in bounds for an entity id below `num_ents`. -/
theorem add_comp_pool_set {V : Type} [Inhabited V] (pool : Pool V) {e : Entity} (obj : V)
    {n : Nat} (he : e.id < n) :
    ∃ p2, (if e.id ≥ pool.get_size then pool.resize n else pool).set e.id obj = .ok p2 := by
  unfold Pool.set
  by_cases hge : e.id ≥ pool.get_size
  · rw [if_pos hge]
    simp only [Pool.resize, vector_resize_length, if_pos he]
    exact ⟨_, rfl⟩
  · rw [if_neg hge]
    have : e.id < pool.data.length := by
      simp only [Pool.get_size] at hge
      omega
    rw [if_pos this]
    exact ⟨_, rfl⟩

theorem add_comp_total {V : Type} [Inhabited V] {T : Nat} {e : Entity} (obj : V) {w : World V}
    (hlen : w.reg.ent_comp_signs.length = w.reg.num_ents) (he : e.id < w.reg.num_ents)
    (hid : (Component.get_id T w.icomp).1 < MAX_COMPS) :
    ∃ w1, add_comp T e obj w = .ok w1 := by
  unfold add_comp
  simp only
  obtain ⟨slot, hslot⟩ := vector_at_of_lt
    (add_comp_pools_lt (Component.get_id T w.icomp).1 w.reg.comp_pools)
  rw [hslot]
  simp only [Entity.get_id]
  generalize (match slot with
    | none => Pool.new 100
    | some p => p) = pool
  obtain ⟨p2, hp2⟩ := add_comp_pool_set pool obj he
  rw [hp2]
  obtain ⟨sg, hsg⟩ := @vector_at_of_lt _ w.reg.ent_comp_signs e.id (by rw [hlen]; exact he)
  simp only [hsg]
  obtain ⟨sg1, hsg1⟩ := Signature.set_ok sg true hid
  simp only [hsg1]
  exact ⟨_, rfl⟩

/-- C1. In every reachable state and for every entity `e` the registry has
created (`e.id < num_ents`), `add_comp<T>(e, obj)` returns normally exactly when
the id of `T` fits the 32-bit signature, and whenever it returns, `has_comp<T>(e)`
is `true` and `get_comp<T>(e)` is `obj` in the state it leaves, whatever was
attached or removed before. -/
theorem add_comp_then_has_get {V : Type} [Inhabited V] (T : Nat) (e : Entity) (obj : V)
    (w : World V) (hr : Reachable w) (he : e.id < w.reg.num_ents) :
    ((∃ w1, add_comp T e obj w = .ok w1) ↔ (Component.get_id T w.icomp).1 < MAX_COMPS) ∧
    ∀ w1, add_comp T e obj w = .ok w1 →
      has_comp T e w1 = .ok (true, w1) ∧ get_comp T e w1 = .ok (obj, w1) := by
  obtain ⟨b, hlen, -⟩ := reachable_inv hr
  refine ⟨⟨?_, add_comp_total obj hlen he⟩, fun w1 h => add_comp_post h⟩
  rintro ⟨w1, h⟩
  obtain ⟨pools, data, sg, sg1, -, -, -, hsg1, -⟩ := add_comp_inv h
  exact Signature.set_lt hsg1

/-- Scenario B: attach with data 5, remove, re-attach with data 9; afterwards
`has_comp` is `true` and `get_comp` returns 9. -/
theorem add_comp_then_has_get_witness :
    Reachable scenario_B_world ∧
    (⟨0⟩ : Entity).id < scenario_B_world.reg.num_ents ∧
    has_comp 0 ⟨0⟩ scenario_B_readded = .ok (true, scenario_B_readded) ∧
    get_comp 0 ⟨0⟩ scenario_B_readded = .ok (9, scenario_B_readded) :=
  ⟨⟨scenario_B_ops, [⟨0⟩], rfl⟩, by decide,
    (add_comp_then_has_get 0 ⟨0⟩ 9 scenario_B_world ⟨scenario_B_ops, [⟨0⟩], rfl⟩
      (by decide)).2 scenario_B_readded rfl⟩

/-! ## C2: detach -/

theorem list_set_same {α : Type} (xs : List α) :
    ∀ (i : Nat) (x : α), xs[i]? = some x → xs.set i x = xs := by
  induction xs with
  | nil => intro i x h; simp at h
  | cons y ys ih =>
    intro i x h
    cases i with
    | zero => simp at h; simp [h]
    | succ j =>
      simp at h
      simp [ih j x h]

theorem rm_comp_total {V : Type} {T : Nat} {e : Entity} {w : World V}
    (he : e.id < w.reg.ent_comp_signs.length)
    (hid : (Component.get_id T w.icomp).1 < MAX_COMPS) :
    ∃ w1, rm_comp T e w = .ok w1 := by
  unfold rm_comp
  obtain ⟨sg, hsg⟩ := vector_at_of_lt he
  obtain ⟨sg1, hsg1⟩ := Signature.set_ok sg false hid
  simp only [Entity.get_id, hsg, hsg1]
  exact ⟨_, rfl⟩

theorem rm_comp_post {V : Type} {T : Nat} {e : Entity} {w w1 : World V}
    (h : rm_comp T e w = .ok w1) :
    has_comp T e w1 = .ok (false, w1) ∧ rm_comp T e w1 = .ok w1 := by
  obtain ⟨sg, sg1, hsg, hsg1, rfl⟩ := rm_comp_inv h
  have hid := Component.get_id_twice T w.icomp
  have hat := vector_at_set_self sg1 (vector_at_lt hsg)
  constructor
  · apply has_comp_eval
    · simp only [hid]
    · exact hat
    · simp only [hid]
      exact Signature.test_set_false hsg1
  · unfold rm_comp
    simp only [hid, Entity.get_id, hat, Signature.set_false_twice hsg1, List.set_set]

theorem rm_comp_of_clear {V : Type} {T : Nat} {e : Entity} {w w2 : World V}
    (h : has_comp T e w = .ok (false, w2)) :
    rm_comp T e w = .ok w2 ∧ w2.reg = w.reg := by
  obtain ⟨sg, hsg, hb, hw⟩ := has_comp_inv h
  simp only at hb hw
  have hlt : (Component.get_id T w.icomp).1 < MAX_COMPS := by
    unfold Signature.test at hb
    by_cases hp : (Component.get_id T w.icomp).1 < MAX_COMPS
    · exact hp
    · rw [if_neg hp] at hb; cases hb
  have hbit : sg.bits.testBit (Component.get_id T w.icomp).1 = false := by
    unfold Signature.test at hb
    rw [if_pos hlt] at hb
    exact Except.ok.inj hb
  subst hw
  refine ⟨?_, rfl⟩
  unfold rm_comp
  simp only [Entity.get_id, hsg, Signature.set_false_of_clear hlt hbit,
    list_set_same _ _ _ (vector_at_eq_ok.mp hsg)]

/-- C2. In every state and for every entity `e` that has a signature slot (as
every created entity has), `rm_comp<T>(e)` returns normally exactly when the id
of `T` fits the signature; whenever it returns, `has_comp<T>(e)` is `false`
afterwards and a second `rm_comp<T>(e)` returns the very same state; and when
`has_comp<T>(e)` is already `false`, `rm_comp<T>(e)` leaves the registry as it
is (the only effect is the one `has_comp` has too: `T` gets its id). -/
theorem rm_comp_clears_idempotent {V : Type} (T : Nat) (e : Entity) (w : World V)
    (he : e.id < w.reg.ent_comp_signs.length) :
    ((∃ w1, rm_comp T e w = .ok w1) ↔ (Component.get_id T w.icomp).1 < MAX_COMPS) ∧
    (∀ w1, rm_comp T e w = .ok w1 →
      has_comp T e w1 = .ok (false, w1) ∧ rm_comp T e w1 = .ok w1) ∧
    (∀ w2, has_comp T e w = .ok (false, w2) →
      rm_comp T e w = .ok w2 ∧ w2.reg = w.reg) := by
  refine ⟨⟨?_, rm_comp_total he⟩, fun w1 h => rm_comp_post h, fun w2 h => rm_comp_of_clear h⟩
  rintro ⟨w1, h⟩
  obtain ⟨sg, sg1, -, hsg1, -⟩ := rm_comp_inv h
  exact Signature.set_lt hsg1

/-- Entity 0 with component type 0 attached: `rm_comp` clears it, and a second
`rm_comp` returns the same state. -/
theorem rm_comp_clears_idempotent_witness :
    (⟨0⟩ : Entity).id < scenario_B_readded.reg.ent_comp_signs.length ∧
    has_comp 0 ⟨0⟩ scenario_B_removed = .ok (false, scenario_B_removed) ∧
    rm_comp 0 ⟨0⟩ scenario_B_removed = .ok scenario_B_removed :=
  ⟨(by rfl : (1 : Nat) ≤ _),
    (rm_comp_clears_idempotent 0 ⟨0⟩ scenario_B_readded (by rfl : (1 : Nat) ≤ _)).2.1
      scenario_B_removed rfl⟩

/-! ## C3: the matching law of `update` -/

theorem lookup_map_snd (g : System → System) (k : Nat) (xs : List (Nat × System)) :
    (xs.map (fun p => (p.1, g p.2))).lookup k = (xs.lookup k).map g := by
  induction xs with
  | nil => rfl
  | cons p rest ih =>
    obtain ⟨k1, S⟩ := p
    simp only [List.map_cons, List.lookup_cons]
    cases h : (k == k1) with
    | true => rfl
    | false => exact ih

theorem update_lookup {V : Type} {r r1 : Registry V} (h : r.update = .ok r1) (Tsys : Nat) :
    r1.systems.lookup Tsys = (r.systems.lookup Tsys).map (fun S =>
      { S with ents := S.ents ++ r.ents_to_add.filter (matches_sys r S) }) := by
  rw [update_inv h]
  exact lookup_map_snd (fun S =>
    { S with ents := S.ents ++ r.ents_to_add.filter (matches_sys r S) }) Tsys r.systems

theorem update_total {V : Type} (r : Registry V)
    (h : ∀ e ∈ r.ents_to_add, e.id < r.ent_comp_signs.length) : ∃ r1, r.update = .ok r1 := by
  obtain ⟨r2, h2⟩ := add_all_ok r.ents_to_add r h
  unfold Registry.update
  rw [h2]
  exact ⟨_, rfl⟩

theorem pending_lt {V : Type} {b : Nat} {w : World V} (hi : InvAt b w) :
    ∀ e ∈ w.reg.ents_to_add, e.id < w.reg.ent_comp_signs.length := by
  obtain ⟨hlen, hb, hpend, -⟩ := hi
  intro e he
  rw [hpend] at he
  obtain ⟨i, hi, rfl⟩ := List.mem_map.mp he
  have := List.mem_range'_1.mp hi
  show i < _
  omega

theorem is_interested_iff (a b : Signature) : is_interested a b = true ↔ a.and b = b := by
  unfold is_interested
  exact decide_eq_true_iff

/-- C3. In every reachable state `update()` returns; and whenever `update()`
returns, the system registered under any key keeps its required signature and
its old members and gets a list `added` appended such that a pending entity `e`
is in `added` if and only if `(signature(e) & required(S)) == required(S)`, with
`signature(e)` the signature stored when `update()` runs. -/
theorem update_adds_iff_matches {V : Type} [Inhabited V] (w : World V) :
    (Reachable w → ∃ r1, w.reg.update = .ok r1) ∧
    ∀ r1, w.reg.update = .ok r1 → ∀ Tsys S, w.reg.systems.lookup Tsys = some S →
      ∃ added, r1.systems.lookup Tsys = some { S with ents := S.ents ++ added } ∧
        ∀ e ∈ w.reg.ents_to_add, ∀ sg, w.reg.ent_comp_signs[e.id]? = some sg →
          (e ∈ added ↔ sg.and S.comp_sign = S.comp_sign) := by
  constructor
  · intro hr
    obtain ⟨b, hb⟩ := reachable_inv hr
    exact update_total w.reg (pending_lt hb)
  · intro r1 h Tsys S hS
    refine ⟨w.reg.ents_to_add.filter (matches_sys w.reg S), ?_, ?_⟩
    · rw [update_lookup h, hS]
      rfl
    · intro e he sg hsg
      rw [List.mem_filter]
      simp only [matches_sys, hsg, System.get_comp_sign, is_interested_iff]
      exact ⟨fun h => h.2, fun h => ⟨he, h⟩⟩

/-- Scenario A: entities 0, 1, 2 are pending and entity 0 carries both required
components when `update()` runs, so it is among the entities added to system 7. -/
theorem update_adds_iff_matches_witness :
    ∃ added, scenario_A_updated.systems.lookup 7 =
        some { comp_sign := ⟨3, by decide⟩, ents := [] ++ added } ∧
      ∀ e ∈ scenario_A_world.reg.ents_to_add, ∀ sg,
        scenario_A_world.reg.ent_comp_signs[e.id]? = some sg →
          (e ∈ added ↔ sg.and ⟨3, by decide⟩ = ⟨3, by decide⟩) :=
  (update_adds_iff_matches scenario_A_world).2 scenario_A_updated rfl 7
    ⟨⟨3, by decide⟩, []⟩ rfl

/-! ## C4: deferred visibility -/

theorem run_invAt {V : Type} [Inhabited V] (b : Nat) (ops : List (Op V)) :
    ∀ (w w1 : World V) (out : List Entity), (∀ op ∈ ops, op.not_update = true) →
      InvAt b w → run ops w = .ok (w1, out) → InvAt b w1 := by
  induction ops with
  | nil =>
    intro w w1 out _ hi h
    simp only [run] at h
    cases h
    exact hi
  | cons op ops ih =>
    intro w w1 out hu hi h
    obtain ⟨wa, oa, ob, hs, hr, -⟩ := run_cons_inv h
    exact ih wa w1 ob (fun o ho => hu o (List.mem_cons_of_mem _ ho))
      (invAt_step hi hs (hu op (List.mem_cons_self _ _))) hr

/-- C4. `create_ent`, `add_comp` and `rm_comp` leave the systems, member lists
included, exactly as they are; and the entity `create_ent` returns in a
reachable state is in no system's member list in any state reached from there
by calls other than `update()`. -/
theorem deferred_visibility {V : Type} [Inhabited V] (w : World V) :
    w.reg.create_ent.2.systems = w.reg.systems ∧
    (∀ T e obj w1, add_comp T e obj w = .ok w1 → w1.reg.systems = w.reg.systems) ∧
    (∀ T e w1, rm_comp T e w = .ok w1 → w1.reg.systems = w.reg.systems) ∧
    (Reachable w → ∀ ops w2 out, (∀ op ∈ ops, op.not_update = true) →
      run ops { w with reg := w.reg.create_ent.2 } = .ok (w2, out) →
      ∀ p ∈ w2.reg.systems, w.reg.create_ent.1 ∉ p.2.get_sys_ents) := by
  refine ⟨rfl, ?_, ?_, ?_⟩
  · intro T e obj w1 h
    obtain ⟨pools, data, sg, sg1, -, -, -, -, rfl⟩ := add_comp_inv h
    rfl
  · intro T e w1 h
    obtain ⟨sg, sg1, -, -, rfl⟩ := rm_comp_inv h
    rfl
  · intro hr ops w2 out hu hrun p hp hmem
    obtain ⟨b, hb⟩ := reachable_inv hr
    have h1 : InvAt b { w with reg := w.reg.create_ent.2 } :=
      @invAt_step V _ b Op.create_ent w _ [w.reg.create_ent.1] hb rfl rfl
    have h2 := run_invAt b ops _ w2 out hu h1 hrun
    have h3 := (h2.2.2.2 p hp).2 _ hmem
    have h4 : b ≤ w.reg.num_ents := hb.2.1
    have h5 : w.reg.create_ent.1.id = w.reg.num_ents := rfl
    omega

/-- Entity 0 is created after system 7 (requiring component type 0) was
registered and gets component type 0 attached; without an `update()` it is in
no member list. -/
theorem deferred_visibility_witness :
    Reachable deferred_world ∧
    deferred_world_attached.reg.systems.map
      (fun p => matches_sys deferred_world_attached.reg p.2 ⟨0⟩) = [true] ∧
    ∀ p ∈ deferred_world_attached.reg.systems,
      deferred_world.reg.create_ent.1 ∉ p.2.get_sys_ents :=
  ⟨⟨[Op.add_sys 7 [0]], [], rfl⟩, by decide,
    (deferred_visibility deferred_world).2.2.2 ⟨[Op.add_sys 7 [0]], [], rfl⟩
      [Op.add_comp 0 ⟨0⟩ 5] deferred_world_attached []
      (by decide) rfl⟩

/-! ## C5, C9: the entities a run creates and the first `update` -/

theorem step_created {V : Type} [Inhabited V] {op : Op V} {w w1 : World V} {out : List Entity}
    (h : step op w = .ok (w1, out)) :
    out = (List.range' w.reg.num_ents (if op.is_create then 1 else 0)).map Entity.mk ∧
    w1.reg.num_ents = w.reg.num_ents + (if op.is_create then 1 else 0) := by
  by_cases hu : op.not_update = true
  · rcases step_counts h hu with ⟨rfl, rfl, rfl⟩ | ⟨hne, rfl, hn, -, -⟩
    · exact ⟨rfl, rfl⟩
    · have : op.is_create = false := by
        cases op <;> first | rfl | exact absurd rfl hne
      simp [this, hn]
  · have : op = Op.update := by
      cases op <;> first | rfl | exact absurd rfl hu
    subst this
    obtain ⟨rfl, rfl⟩ := step_update_inv h
    exact ⟨rfl, rfl⟩

/-- The entities a run returns are numbered consecutively from the counter value
the run starts with, one per `create_ent` call. -/
theorem run_created {V : Type} [Inhabited V] (ops : List (Op V)) :
    ∀ (w w1 : World V) (out : List Entity), run ops w = .ok (w1, out) →
      out = (List.range' w.reg.num_ents (ops.filter Op.is_create).length).map Entity.mk ∧
      w1.reg.num_ents = w.reg.num_ents + (ops.filter Op.is_create).length := by
  induction ops with
  | nil =>
    intro w w1 out h
    simp only [run] at h
    cases h
    exact ⟨rfl, rfl⟩
  | cons op ops ih =>
    intro w w1 out h
    obtain ⟨wa, oa, ob, hs, hr, rfl⟩ := run_cons_inv h
    obtain ⟨h1, h2⟩ := step_created hs
    obtain ⟨h3, h4⟩ := ih wa w1 ob hr
    rw [h2] at h3 h4
    rw [h1, h3, h4]
    cases hc : op.is_create with
    | true =>
      simp only [List.filter_cons, hc, if_true, List.length_cons]
      refine ⟨?_, by omega⟩
      rw [← List.map_append]
      congr 1
    | false =>
      simp [List.filter_cons, hc]

theorem run_no_members {V : Type} [Inhabited V] (ops : List (Op V)) :
    ∀ (w w1 : World V) (out : List Entity), (∀ op ∈ ops, op.not_update = true) →
      (∀ p ∈ w.reg.systems, p.2.ents = []) → run ops w = .ok (w1, out) →
      ∀ p ∈ w1.reg.systems, p.2.ents = [] := by
  induction ops with
  | nil =>
    intro w w1 out _ hi h
    simp only [run] at h
    cases h
    exact hi
  | cons op ops ih =>
    intro w w1 out hu hi h
    obtain ⟨wa, oa, ob, hs, hr, -⟩ := run_cons_inv h
    refine ih wa w1 ob (fun o ho => hu o (List.mem_cons_of_mem _ ho)) ?_ hr
    intro p hp
    rcases step_systems hs (hu op (List.mem_cons_self _ _)) p hp with h1 | h1
    · exact hi p h1
    · exact h1

/-- C5. From the program start, after any sequence of calls without `update()`
(so of `create_ent`, `add_comp`, `rm_comp`, `add_sys`, and also `rm_sys`,
`has_comp`, `get_comp`), `update()` returns, keeps the registered systems, and
leaves in each system's member list exactly the created entities whose
signature covers the system's required signature, in creation order, which is
ascending id order: the created entities are the ids `0 .. num_ents - 1`. -/
theorem first_update_members {V : Type} [Inhabited V] (ops : List (Op V)) (w : World V)
    (out : List Entity) (hu : ∀ op ∈ ops, op.not_update = true)
    (h : run ops World.init = .ok (w, out)) :
    out = (List.range w.reg.num_ents).map Entity.mk ∧
    ∃ r1, w.reg.update = .ok r1 ∧
      r1.systems.map Prod.fst = w.reg.systems.map Prod.fst ∧
      ∀ p ∈ r1.systems, p.2.get_sys_ents = out.filter (matches_sys r1 p.2) := by
  have hinv : InvAt 0 w := run_invAt 0 ops _ w out hu invAt_init h
  have hnone : ∀ p ∈ w.reg.systems, p.2.ents = [] :=
    run_no_members ops _ w out hu (fun p hp => by cases hp) h
  obtain ⟨hout, hn⟩ := run_created ops _ w out h
  have hn1 : (List.filter Op.is_create ops).length = w.reg.num_ents := by
    rw [hn]
    show _ = 0 + _
    omega
  have hout1 : out = (List.range w.reg.num_ents).map Entity.mk := by
    rw [hout, hn1, List.range_eq_range']
    rfl
  have hpend : w.reg.ents_to_add = out := by
    rw [hout1, hinv.2.2.1, List.range_eq_range']
    rfl
  obtain ⟨r1, hr1⟩ := update_total w.reg (pending_lt hinv)
  refine ⟨hout1, r1, hr1, ?_, ?_⟩
  · rw [update_inv hr1]
    simp only [List.map_map]
    apply List.map_congr_left
    intro p _
    rfl
  · intro p hp
    rw [update_inv hr1] at hp
    obtain ⟨q, hq, rfl⟩ := List.mem_map.mp hp
    rw [update_inv hr1]
    simp only [System.with_added, System.get_sys_ents, hnone q hq, List.nil_append, hpend]
    rw [matches_sys_systems]
    congr 1

theorem run_eq_of_ok {V : Type} [Inhabited V] {ops : List (Op V)} {w : World V}
    (h : run_ok ops w = true) : run ops w = .ok (run_world ops w, run_out ops w) := by
  unfold run_ok at h
  unfold run_world run_out
  cases hr : run ops w with
  | error e => rw [hr] at h; cases h
  | ok r => rfl

/-- Scenario A: three entities, both required components on entities 0 and 1,
one on entity 2; after `update()` the members of the system are entities 0, 1. -/
theorem first_update_members_witness :
    (∀ op ∈ scenario_A_ops, op.not_update = true) ∧
    run_out scenario_A_ops (World.init : World Nat) = [⟨0⟩, ⟨1⟩, ⟨2⟩] ∧
    members 7 scenario_A_updated = some [⟨0⟩, ⟨1⟩] ∧
    ∃ r1, scenario_A_world.reg.update = .ok r1 ∧
      r1.systems.map Prod.fst = scenario_A_world.reg.systems.map Prod.fst ∧
      ∀ p ∈ r1.systems,
        p.2.get_sys_ents =
          (run_out scenario_A_ops (World.init : World Nat)).filter (matches_sys r1 p.2) :=
  ⟨by decide, rfl, rfl,
    (first_update_members scenario_A_ops scenario_A_world
      (run_out scenario_A_ops World.init) (by decide) (run_eq_of_ok rfl)).2⟩

/-! ## C6: no duplicate members -/

theorem reachable_of_run_ok {V : Type} [Inhabited V] {ops : List (Op V)}
    (h : run_ok ops (World.init : World V) = true) : Reachable (run_world ops World.init) :=
  ⟨ops, run_out ops World.init, run_eq_of_ok h⟩

theorem pairwise_id_nodup {l : List Entity} (h : l.Pairwise (fun a c => a.id < c.id)) :
    (l.map Entity.get_id).Nodup ∧ l.Nodup := by
  constructor
  · unfold List.Nodup
    rw [List.pairwise_map]
    exact h.imp (fun hac => Nat.ne_of_lt hac)
  · exact h.imp (fun hac heq => by rw [heq] at hac; exact Nat.lt_irrefl _ hac)

/-- C6. In every reachable state no system's member list holds the same entity
id twice; and when `update()` runs, a pending entity whose signature covers a
system's required signature is in that system's member list exactly once
afterwards, for every such system. -/
theorem no_duplicate_members {V : Type} [Inhabited V] (w : World V) (hr : Reachable w) :
    (∀ p ∈ w.reg.systems, (p.2.get_sys_ents.map Entity.get_id).Nodup) ∧
    ∀ r1, w.reg.update = .ok r1 → ∀ e ∈ w.reg.ents_to_add, ∀ p ∈ r1.systems,
      matches_sys r1 p.2 e = true → p.2.get_sys_ents.count e = 1 := by
  constructor
  · intro p hp
    obtain ⟨b, hb⟩ := reachable_inv hr
    exact (pairwise_id_nodup (hb.2.2.2 p hp).1).1
  · intro r1 h e he p hp hm
    have hstep : step Op.update w = .ok ({ w with reg := r1 }, []) := by
      simp only [step, h]
      rfl
    obtain ⟨b, hb⟩ := reachable_inv (reachable_step hr hstep)
    have hnd := (pairwise_id_nodup (hb.2.2.2 p hp).1).2
    apply List.count_eq_one_of_mem hnd
    rw [update_inv h] at hp
    obtain ⟨q, hq, rfl⟩ := List.mem_map.mp hp
    rw [update_inv h] at hm
    simp only [System.with_added] at hm
    rw [matches_sys_systems] at hm
    simp only [System.with_added, System.get_sys_ents]
    exact List.mem_append_right _ (List.mem_filter.mpr ⟨he, hm⟩)

/-- Scenario C: entity 0 satisfies both systems; after `update()` each member
list is exactly `[entity 0]`, without a duplicate. -/
theorem no_duplicate_members_witness :
    Reachable scenario_C_world ∧
    members 7 scenario_C_world.reg = some [⟨0⟩] ∧
    members 8 scenario_C_world.reg = some [⟨0⟩] ∧
    ∀ p ∈ scenario_C_world.reg.systems, (p.2.get_sys_ents.map Entity.get_id).Nodup :=
  ⟨reachable_of_run_ok rfl, rfl, rfl,
    (no_duplicate_members scenario_C_world (reachable_of_run_ok rfl)).1⟩

/-! ## C7: members and their signatures -/

theorem run_induct {V : Type} [Inhabited V] (P : World V → Prop) (allowed : Op V → Bool)
    (hstep : ∀ op w w1 out, allowed op = true → P w → step op w = .ok (w1, out) → P w1)
    (ops : List (Op V)) :
    ∀ (w w1 : World V) (out : List Entity), (∀ op ∈ ops, allowed op = true) → P w →
      run ops w = .ok (w1, out) → P w1 := by
  induction ops with
  | nil =>
    intro w w1 out _ hi h
    simp only [run] at h
    cases h
    exact hi
  | cons op ops ih =>
    intro w w1 out hu hi h
    obtain ⟨wa, oa, ob, hs, hr, -⟩ := run_cons_inv h
    exact ih wa w1 ob (fun o ho => hu o (List.mem_cons_of_mem _ ho))
      (hstep op w wa oa (hu op (List.mem_cons_self _ _)) hi hs) hr

theorem is_interested_set_true {sg sg1 S : Signature} {pos : Nat}
    (h : sg.set pos true = .ok sg1) (hi : is_interested sg S = true) :
    is_interested sg1 S = true := by
  rw [is_interested_iff] at hi ⊢
  apply Signature.ext_bits
  have hb : sg.bits &&& S.bits = S.bits := congrArg Signature.bits hi
  show sg1.bits &&& S.bits = S.bits
  apply Nat.eq_of_testBit_eq
  intro i
  have hbi := congrArg (fun n => n.testBit i) hb
  simp only [Nat.testBit_and] at hbi
  rw [Nat.testBit_and, Signature.testBit_set_true h]
  cases h1 : sg.bits.testBit i <;> cases h2 : S.bits.testBit i <;> simp_all

theorem create_ent_sign_get {V : Type} (r : Registry V) {i : Nat} {sg : Signature}
    (h : r.ent_comp_signs[i]? = some sg) : r.create_ent.2.ent_comp_signs[i]? = some sg := by
  have hlt : i < r.ent_comp_signs.length := (List.getElem?_eq_some_iff.mp h).1
  simp only [Registry.create_ent]
  by_cases hge : r.num_ents ≥ r.ent_comp_signs.length
  · rw [if_pos hge]
    unfold vector_resize
    rw [List.getElem?_append_left (by rw [List.length_take]; omega),
      List.getElem?_take, if_pos (by omega), h]
  · rw [if_neg hge, h]

theorem matched_create_ent {V : Type} {w : World V} (h : Matched w) :
    Matched { w with reg := w.reg.create_ent.2 } := by
  intro p hp e he
  have h1 := h p hp e he
  unfold matches_sys at h1 ⊢
  cases hsg : w.reg.ent_comp_signs[e.id]? with
  | none => rw [hsg] at h1; cases h1
  | some sg =>
    rw [hsg] at h1
    simp only [create_ent_sign_get w.reg hsg]
    exact h1

theorem matched_add_comp {V : Type} [Inhabited V] {T : Nat} {e : Entity} {obj : V}
    {w w1 : World V} (h : Matched w) (ha : add_comp T e obj w = .ok w1) : Matched w1 := by
  obtain ⟨pools, data, sg, sg1, -, -, hsg, hsg1, rfl⟩ := add_comp_inv ha
  intro p hp m hm
  have h1 := h p hp m hm
  unfold matches_sys at h1 ⊢
  simp only [List.getElem?_set]
  by_cases heq : e.id = m.id
  · rw [if_pos heq, if_pos (vector_at_lt hsg)]
    simp only
    rw [← heq, vector_at_eq_ok.mp hsg] at h1
    exact is_interested_set_true hsg1 h1
  · rw [if_neg heq]
    exact h1

theorem matched_update {V : Type} {w : World V} {r1 : Registry V} (h : Matched w)
    (hu : w.reg.update = .ok r1) : Matched { w with reg := r1 } := by
  obtain rfl := update_inv hu
  intro p hp m hm
  obtain ⟨q, hq, rfl⟩ := List.mem_map.mp hp
  simp only [System.with_added, System.get_sys_ents] at hm ⊢
  rw [matches_sys_systems]
  rcases List.mem_append.mp hm with h1 | h1
  · exact h q hq m h1
  · exact (List.mem_filter.mp h1).2

theorem matched_step {V : Type} [Inhabited V] (op : Op V) (w w1 : World V) (out : List Entity)
    (hn : op.not_rm_comp = true) (h : Matched w) (hs : step op w = .ok (w1, out)) :
    Matched w1 := by
  cases op with
  | create_ent =>
    simp only [step] at hs
    cases hs
    exact matched_create_ent h
  | add_comp T e obj =>
    simp only [step] at hs
    obtain ⟨w2, h2, hw⟩ := Except.map_eq_ok hs
    cases hw
    exact matched_add_comp h h2
  | rm_comp T e => cases hn
  | has_comp T e =>
    simp only [step] at hs
    obtain ⟨r, h2, hw⟩ := Except.map_eq_ok hs
    cases hw
    obtain ⟨sg, -, -, hr⟩ := has_comp_inv h2
    rw [hr]
    exact h
  | get_comp T e =>
    simp only [step] at hs
    obtain ⟨r, h2, hw⟩ := Except.map_eq_ok hs
    cases hw
    rw [get_comp_inv h2]
    exact h
  | add_sys Tsys reqs =>
    simp only [step] at hs
    obtain ⟨w2, h2, hw⟩ := Except.map_eq_ok hs
    cases hw
    obtain ⟨r, hr, rfl⟩ := add_sys_inv h2
    intro p hp m hm
    simp only at hp
    split at hp
    · exact h p hp m hm
    · rcases List.mem_append.mp hp with hp1 | hp1
      · exact h p hp1 m hm
      · rw [List.mem_singleton.mp hp1] at hm
        simp only [System.get_sys_ents, System.construct_ents reqs _ _ _ hr] at hm
        cases hm
  | rm_sys Tsys =>
    simp only [step] at hs
    obtain ⟨r, h2, hw⟩ := Except.map_eq_ok hs
    cases hw
    obtain ⟨-, rfl⟩ := rm_sys_inv h2
    intro p hp m hm
    exact h p (List.mem_of_mem_eraseP hp) m hm
  | update =>
    simp only [step] at hs
    obtain ⟨r, h2, hw⟩ := Except.map_eq_ok hs
    cases hw
    exact matched_update h h2

/-- C7, counterexample. After create, attach, register, `update()`, `rm_comp`,
`update()`, entity 0 is still a member of system 7 although its signature (no
bit set) no longer covers the required signature (bit 0): immediately after an
`update()` a member does not satisfy its system. -/
theorem stale_member_counterexample :
    Reachable stale_member_world ∧
    stale_member_world.reg.systems = [(7, ⟨⟨1, by decide⟩, [⟨0⟩]⟩)] ∧
    stale_member_world.reg.ent_comp_signs = [⟨0, by decide⟩] ∧
    is_interested ⟨0, by decide⟩ ⟨1, by decide⟩ = false ∧
    ¬ Matched stale_member_world :=
  ⟨reachable_of_run_ok rfl, rfl, rfl, rfl,
    fun h => absurd (h (7, ⟨⟨1, by decide⟩, [⟨0⟩]⟩) (by decide) ⟨0⟩ (by decide)) (by decide)⟩

/-- C7, amended. In every state reached from the program start by calls other
than `rm_comp` (in particular immediately after an `update()`), every member of
every registered system has a signature that covers the system's required
signature: `(signature(e) & required(S)) == required(S)`. -/
theorem members_match_without_rm_comp {V : Type} [Inhabited V] (ops : List (Op V))
    (w : World V) (out : List Entity) (hn : ∀ op ∈ ops, op.not_rm_comp = true)
    (h : run ops World.init = .ok (w, out)) :
    ∀ p ∈ w.reg.systems, ∀ e ∈ p.2.get_sys_ents,
      ∃ sg, w.reg.ent_comp_signs[e.id]? = some sg ∧
        sg.and p.2.get_comp_sign = p.2.get_comp_sign := by
  have hm : Matched w :=
    run_induct Matched Op.not_rm_comp matched_step ops _ w out hn
      (fun p hp => by cases hp) h
  intro p hp e he
  have h1 := hm p hp e he
  unfold matches_sys at h1
  cases hsg : w.reg.ent_comp_signs[e.id]? with
  | none => rw [hsg] at h1; cases h1
  | some sg =>
    rw [hsg] at h1
    exact ⟨sg, rfl, (is_interested_iff _ _).mp h1⟩

/-- Scenario C has no `rm_comp` and ends with `update()`: entity 0, the member
of both systems, covers both required signatures. -/
theorem members_match_without_rm_comp_witness :
    (∀ op ∈ scenario_C_ops, op.not_rm_comp = true) ∧
    ∀ p ∈ scenario_C_world.reg.systems, ∀ e ∈ p.2.get_sys_ents,
      ∃ sg, scenario_C_world.reg.ent_comp_signs[e.id]? = some sg ∧
        sg.and p.2.get_comp_sign = p.2.get_comp_sign :=
  ⟨by decide,
    members_match_without_rm_comp scenario_C_ops scenario_C_world
      (run_out scenario_C_ops World.init) (by decide) (run_eq_of_ok rfl)⟩

/-! ## C8: component type ids -/

theorem lookup_eq_none_iff_keys (T : Nat) (l : List (Nat × Nat)) :
    l.lookup T = none ↔ T ∉ l.map Prod.fst := by
  induction l with
  | nil => simp
  | cons p rest ih =>
    obtain ⟨k, v⟩ := p
    simp only [List.lookup_cons, List.map_cons, List.mem_cons, not_or]
    by_cases h : T = k
    · subst h
      simp
    · have : (T == k) = false := by simpa using h
      rw [this]
      simp only [ih]
      exact ⟨fun h1 => ⟨h, h1⟩, fun h1 => h1.2⟩

theorem lookup_some_mem (T i : Nat) (l : List (Nat × Nat)) (h : l.lookup T = some i) :
    (T, i) ∈ l := by
  induction l with
  | nil => simp at h
  | cons p rest ih =>
    obtain ⟨k, v⟩ := p
    simp only [List.lookup_cons] at h
    by_cases hk : T = k
    · subst hk
      simp at h
      subst h
      exact List.mem_cons_self _ _
    · have : (T == k) = false := by simpa using hk
      rw [this] at h
      exact List.mem_cons_of_mem _ (ih h)

theorem get_id_lookup (T : Nat) (st : Icomp) :
    (Component.get_id T st).2.ids.lookup T = some (Component.get_id T st).1 := by
  unfold Component.get_id
  cases h : st.ids.lookup T with
  | some id => simp [h]
  | none => simp [List.lookup]

theorem get_id_of_lookup {T i : Nat} {st : Icomp} (h : st.ids.lookup T = some i) :
    Component.get_id T st = (i, st) := by
  unfold Component.get_id
  rw [h]

theorem get_id_keeps (T T1 i : Nat) (st : Icomp) (h : st.ids.lookup T = some i) :
    (Component.get_id T1 st).2.ids.lookup T = some i := by
  unfold Component.get_id
  cases h1 : st.ids.lookup T1 with
  | some id => exact h
  | none =>
    have hne : (T == T1) = false := by
      cases hb : (T == T1) with
      | false => rfl
      | true =>
        have : T = T1 := by simpa using hb
        subst this
        rw [h] at h1
        cases h1
    simp only [List.lookup_cons, hne]
    exact h

theorem calls_keeps (T i : Nat) (Ts : List Nat) :
    ∀ st : Icomp, st.ids.lookup T = some i → (Icomp.calls Ts st).ids.lookup T = some i := by
  induction Ts with
  | nil => intro st h; exact h
  | cons T1 rest ih =>
    intro st h
    exact ih _ (get_id_keeps T T1 i st h)

theorem after_snoc (Ts : List Nat) (T : Nat) :
    Icomp.after (Ts ++ [T]) = (Component.get_id T (Icomp.after Ts)).2 := by
  unfold Icomp.after
  rw [List.foldl_append]
  rfl

theorem after_append (Ts Ts2 : List Nat) :
    Icomp.after (Ts ++ Ts2) = Icomp.calls Ts2 (Icomp.after Ts) := by
  unfold Icomp.after Icomp.calls
  rw [List.foldl_append]

theorem wf_get_id {st : Icomp} {Ts : List Nat} (T : Nat) (h : st.WF Ts) :
    (Component.get_id T st).2.WF (Ts ++ [T]) := by
  obtain ⟨h1, h2, h3, h4, h5⟩ := h
  unfold Component.get_id
  cases hl : st.ids.lookup T with
  | some i0 =>
    refine ⟨h1, h2, ?_, h4, h5⟩
    intro T1
    have hT : T ∈ st.ids.map Prod.fst := by
      by_contra hc
      rw [(lookup_eq_none_iff_keys T st.ids).mpr hc] at hl
      cases hl
    rw [h3] at hT
    rw [h3, List.mem_append, List.mem_singleton]
    exact ⟨Or.inl, fun h => h.elim (fun h0 => h0) (fun h => h ▸ hT)⟩
  | none =>
    have hT : T ∉ st.ids.map Prod.fst := (lookup_eq_none_iff_keys T st.ids).mp hl
    refine ⟨by simp [h1], ?_, ?_, ?_, ?_⟩
    · simp only [List.map_cons, List.nodup_cons]
      exact ⟨hT, h2⟩
    · intro T1
      rw [List.map_cons, List.mem_cons, List.mem_append, List.mem_singleton, h3]
      exact Or.comm
    · intro p hp
      rcases List.mem_cons.mp hp with rfl | hp1
      · exact Nat.lt_succ_self _
      · exact Nat.lt_succ_of_lt (h4 p hp1)
    · simp only [List.map_cons, List.nodup_cons]
      refine ⟨?_, h5⟩
      intro hmem
      obtain ⟨p, hp, hpe⟩ := List.mem_map.mp hmem
      have := h4 p hp
      omega

theorem wf_after (Ts : List Nat) : (Icomp.after Ts).WF Ts := by
  induction Ts using List.reverseRecOn with
  | nil =>
    refine ⟨rfl, List.nodup_nil, ?_, ?_, List.nodup_nil⟩
    · intro T; simp [Icomp.after, Icomp.init]
    · intro p hp; cases hp
  | append_singleton Ts T ih =>
    rw [after_snoc]
    exact wf_get_id T ih

theorem wf_count {st : Icomp} {Ts : List Nat} (h : st.WF Ts) :
    st.next_id = Ts.dedup.length := by
  obtain ⟨h1, h2, h3, -, -⟩ := h
  rw [h1, ← List.length_map st.ids Prod.fst, ← List.toFinset_card_of_nodup h2,
    ← List.card_toFinset]
  congr 1
  ext T
  simp only [List.mem_toFinset]
  exact h3 T

theorem wf_ids_differ {st : Icomp} {Ts : List Nat} (h : st.WF Ts) {T1 T2 i1 i2 : Nat}
    (hne : T1 ≠ T2) (hl1 : st.ids.lookup T1 = some i1) (hl2 : st.ids.lookup T2 = some i2) :
    i1 ≠ i2 := by
  intro heq
  subst heq
  have hinj := List.inj_on_of_nodup_map h.2.2.2.2 (lookup_some_mem _ _ _ hl1)
    (lookup_some_mem _ _ _ hl2) rfl
  exact hne (congrArg Prod.fst hinj)

theorem get_id_fresh (Ts : List Nat) (T : Nat) (hT : T ∉ Ts) :
    (Component.get_id T (Icomp.after Ts)).1 = Ts.dedup.length := by
  have hwf := wf_after Ts
  have hnone : (Icomp.after Ts).ids.lookup T = none :=
    (lookup_eq_none_iff_keys T _).mpr (fun h => hT ((hwf.2.2.1 T).mp h))
  have : (Component.get_id T (Icomp.after Ts)).1 = (Icomp.after Ts).next_id := by
    unfold Component.get_id
    rw [hnone]
  rw [this]
  exact wf_count hwf

/-- C8. With `Ts` the types `get_id` was called for since program start: a call
for `T` returns the same id again on every later call, whatever calls `Ts2` for
other types come in between; the first call for a type not in `Ts` returns the
number of distinct types in `Ts` (ids are dense from 0); and a different type
`T2` never gets the id of `T`. -/
theorem get_id_allocation (Ts Ts2 : List Nat) (T T2 : Nat) :
    (Component.get_id T (Icomp.calls Ts2 (Component.get_id T (Icomp.after Ts)).2)).1
      = (Component.get_id T (Icomp.after Ts)).1 ∧
    (T ∉ Ts → (Component.get_id T (Icomp.after Ts)).1 = Ts.dedup.length) ∧
    (T ≠ T2 →
      (Component.get_id T2 (Icomp.calls Ts2 (Component.get_id T (Icomp.after Ts)).2)).1
        ≠ (Component.get_id T (Icomp.after Ts)).1) := by
  have hk := calls_keeps T _ Ts2 _ (get_id_lookup T (Icomp.after Ts))
  refine ⟨?_, ?_, ?_⟩
  · rw [get_id_of_lookup hk]
  · exact get_id_fresh Ts T
  · intro hne heq
    have hwf : (Component.get_id T2
        (Icomp.calls Ts2 (Component.get_id T (Icomp.after Ts)).2)).2.WF
        (Ts ++ [T] ++ Ts2 ++ [T2]) := by
      rw [← after_snoc Ts T, ← after_append, ← after_snoc]
      exact wf_after _
    exact wf_ids_differ hwf hne (get_id_keeps T T2 _ _ hk) (get_id_lookup T2 _) heq.symm

/-- After calls for the types 0, 1, 0 the new type 2 gets id 2, keeps it after a
call for type 5, and type 5 gets another id. -/
theorem get_id_allocation_witness :
    (2 ∉ [0, 1, 0]) ∧ (2 ≠ 5) ∧
    (Component.get_id 2 (Icomp.calls [5] (Component.get_id 2 (Icomp.after [0, 1, 0])).2)).1
      = (Component.get_id 2 (Icomp.after [0, 1, 0])).1 ∧
    (Component.get_id 2 (Icomp.after [0, 1, 0])).1 = [0, 1, 0].dedup.length ∧
    (Component.get_id 5 (Icomp.calls [5] (Component.get_id 2 (Icomp.after [0, 1, 0])).2)).1
      ≠ (Component.get_id 2 (Icomp.after [0, 1, 0])).1 :=
  ⟨by decide, by decide,
    (get_id_allocation [0, 1, 0] [5] 2 5).1,
    (get_id_allocation [0, 1, 0] [5] 2 5).2.1 (by decide),
    (get_id_allocation [0, 1, 0] [5] 2 5).2.2 (by decide)⟩

/-! ## C9: entity ids -/

/-- C9. For every run from the program start, whatever other calls are
interleaved: the entities returned by the `create_ent` calls are, in call order,
the ids 0, 1, 2, ... (the k-th call returns id k - 1), one per call; so their ids
are pairwise different and non-negative; and the next `create_ent` returns
normally with the next id. -/
theorem create_ent_ids {V : Type} [Inhabited V] (ops : List (Op V)) (w : World V)
    (out : List Entity) (h : run ops World.init = .ok (w, out)) :
    out.length = (ops.filter Op.is_create).length ∧
    out = (List.range out.length).map Entity.mk ∧
    (out.map Entity.get_id).Nodup ∧
    (∀ e ∈ out, (0 : Int) ≤ (e.get_id : Int)) ∧
    ∃ w1, step Op.create_ent w = .ok (w1, [⟨out.length⟩]) := by
  obtain ⟨hout, hn⟩ := run_created ops _ w out h
  have hlen : out.length = (ops.filter Op.is_create).length := by
    rw [hout, List.length_map, List.length_range']
  have hnum : w.reg.num_ents = out.length := by
    rw [hn, hlen]
    show 0 + _ = _
    omega
  have hrange : out = (List.range out.length).map Entity.mk := by
    rw [List.range_eq_range', hlen]
    exact hout
  refine ⟨hlen, hrange, ?_, fun e _ => Int.ofNat_nonneg _, ?_⟩
  · rw [hrange, List.map_map]
    have : (Entity.get_id ∘ Entity.mk) = id := rfl
    rw [this, List.map_id]
    exact List.nodup_range _
  · refine ⟨{ w with reg := w.reg.create_ent.2 }, ?_⟩
    simp only [step, Registry.create_ent, hnum]

/-- The three `create_ent` calls of `interleaved_ops` return the ids 0, 1, 2. -/
theorem create_ent_ids_witness :
    run_out interleaved_ops (World.init : World Nat) = [⟨0⟩, ⟨1⟩, ⟨2⟩] ∧
    (run_out interleaved_ops (World.init : World Nat)).length
      = (interleaved_ops.filter Op.is_create).length ∧
    run_out interleaved_ops (World.init : World Nat)
      = (List.range (run_out interleaved_ops (World.init : World Nat)).length).map Entity.mk :=
  ⟨rfl,
    (create_ent_ids interleaved_ops (run_world interleaved_ops World.init)
      (run_out interleaved_ops World.init) (run_eq_of_ok rfl)).1,
    (create_ent_ids interleaved_ops (run_world interleaved_ops World.init)
      (run_out interleaved_ops World.init) (run_eq_of_ok rfl)).2.1⟩

/-! ## C10: the signature capacity -/

theorem Signature.set_out_of_range (s : Signature) {pos : Nat} (val : Bool)
    (h : MAX_COMPS ≤ pos) : s.set pos val = .error .out_of_range := by
  unfold Signature.set
  rw [dif_neg (by omega)]

theorem Signature.test_out_of_range (s : Signature) {pos : Nat}
    (h : MAX_COMPS ≤ pos) : s.test pos = .error .out_of_range := by
  unfold Signature.test
  rw [if_neg (by omega)]

theorem add_comp_out_of_range {V : Type} [Inhabited V] {T : Nat} {e : Entity} (obj : V)
    {w : World V} (hlen : w.reg.ent_comp_signs.length = w.reg.num_ents)
    (he : e.id < w.reg.num_ents) (hid : MAX_COMPS ≤ (Component.get_id T w.icomp).1) :
    add_comp T e obj w = .error .out_of_range := by
  unfold add_comp
  simp only
  obtain ⟨slot, hslot⟩ := vector_at_of_lt
    (add_comp_pools_lt (Component.get_id T w.icomp).1 w.reg.comp_pools)
  rw [hslot]
  simp only [Entity.get_id]
  generalize (match slot with
    | none => Pool.new 100
    | some p => p) = pool
  obtain ⟨p2, hp2⟩ := add_comp_pool_set pool obj he
  rw [hp2]
  obtain ⟨sg, hsg⟩ := @vector_at_of_lt _ w.reg.ent_comp_signs e.id (by rw [hlen]; exact he)
  simp only [hsg, Signature.set_out_of_range sg true hid]

/-- C10, counterexample. With the 32 types 0 .. 31 holding the ids 0 .. 31,
`get_id` for the further type 32 returns the id 32, which is not below
`MAX_COMPS`; the call has no error result. -/
theorem get_id_beyond_capacity_counterexample :
    (Icomp.after (List.range 32)).ids.length = MAX_COMPS ∧
    (Component.get_id 32 (Icomp.after (List.range 32))).1 = 32 ∧
    ¬ (Component.get_id 32 (Icomp.after (List.range 32))).1 < MAX_COMPS :=
  ⟨by decide, by decide, by decide⟩

/-- C10, amended. `get_id` has no capacity check: once `MAX_COMPS` or more
distinct types have ids, a further distinct type gets the next id, which is not
below `MAX_COMPS` (no error, no wrap). The capacity is enforced where such an
id is used as a bit position: `req_comp`, and `rm_comp`, `has_comp`, `add_comp`
on a created entity, throw `std::out_of_range` for such a type. -/
theorem id_capacity_enforced_at_use {V : Type} [Inhabited V] (T : Nat) :
    (∀ Ts : List Nat, T ∉ Ts → MAX_COMPS ≤ Ts.dedup.length →
      (Component.get_id T (Icomp.after Ts)).1 = Ts.dedup.length ∧
      MAX_COMPS ≤ (Component.get_id T (Icomp.after Ts)).1) ∧
    ∀ (w : World V) (e : Entity), MAX_COMPS ≤ (Component.get_id T w.icomp).1 →
      (∀ s, System.req_comp T s w.icomp = .error .out_of_range) ∧
      (e.id < w.reg.ent_comp_signs.length →
        rm_comp T e w = .error .out_of_range ∧ has_comp T e w = .error .out_of_range) ∧
      (Reachable w → e.id < w.reg.num_ents →
        ∀ obj, add_comp T e obj w = .error .out_of_range) := by
  constructor
  · intro Ts hT hn
    have := get_id_fresh Ts T hT
    exact ⟨this, by rw [this]; exact hn⟩
  · intro w e hid
    refine ⟨?_, ?_, ?_⟩
    · intro s
      unfold System.req_comp
      simp only [Signature.set_out_of_range s.comp_sign true hid]
    · intro he
      obtain ⟨sg, hsg⟩ := vector_at_of_lt he
      constructor
      · unfold rm_comp
        simp only [Entity.get_id, hsg, Signature.set_out_of_range sg false hid]
      · unfold has_comp
        simp only [Entity.get_id, hsg, Signature.test_out_of_range sg hid]
    · intro hr he obj
      obtain ⟨b, hlen, -⟩ := reachable_inv hr
      exact add_comp_out_of_range obj hlen he hid

/-- In `full_world` the 32 types 0 .. 31 have ids; the further type 32 gets the
id 32, and attaching it to the created entity 0 throws `std::out_of_range`. -/
theorem id_capacity_enforced_at_use_witness :
    (32 ∉ List.range 32) ∧ MAX_COMPS ≤ (List.range 32).dedup.length ∧
    (Component.get_id 32 (Icomp.after (List.range 32))).1 = (List.range 32).dedup.length ∧
    Reachable full_world ∧ (⟨0⟩ : Entity).id < full_world.reg.num_ents ∧
    MAX_COMPS ≤ (Component.get_id 32 full_world.icomp).1 ∧
    add_comp 32 ⟨0⟩ 7 full_world = .error .out_of_range :=
  ⟨by decide, by decide,
    ((@id_capacity_enforced_at_use Nat _ 32).1 (List.range 32) (by decide) (by decide)).1,
    reachable_of_run_ok rfl, (by rfl : (1 : Nat) ≤ _), (by rfl : (32 : Nat) ≤ _),
    ((@id_capacity_enforced_at_use Nat _ 32).2 full_world ⟨0⟩ (by rfl : (32 : Nat) ≤ _)).2.2
      (reachable_of_run_ok rfl) (by rfl : (1 : Nat) ≤ _) 7⟩

/-! ## C11: `Pool::resize` -/

theorem vector_resize_get_lt {α : Type} (n : Nat) (d : α) (xs : List α) {i : Nat}
    (hi : i < xs.length) (hn : i < n) : (vector_resize n d xs)[i]? = xs[i]? := by
  unfold vector_resize
  rw [List.getElem?_append_left (by rw [List.length_take]; omega),
    List.getElem?_take, if_pos hn]

theorem vector_resize_get_new {α : Type} (n : Nat) (d : α) (xs : List α) {i : Nat}
    (hi : xs.length ≤ i) (hn : i < n) : (vector_resize n d xs)[i]? = some d := by
  unfold vector_resize
  have hlen : (List.take n xs).length = xs.length := by rw [List.length_take]; omega
  rw [List.getElem?_append_right (by omega), hlen, List.getElem?_replicate, if_pos (by omega)]

/-- C11, counterexample. The pool `Pool(100)` resized with `resize(3)` has size 3,
below its old size 100: `resize` shrinks, and the slots 3 .. 99 are gone. -/
theorem pool_resize_shrinks_counterexample :
    (Pool.new 100 : Pool Nat).get_size = 100 ∧
    ((Pool.new 100 : Pool Nat).resize 3).get_size = 3 ∧
    ¬ (max (Pool.new 100 : Pool Nat).get_size 3 ≤ ((Pool.new 100 : Pool Nat).resize 3).get_size) ∧
    ((Pool.new 100 : Pool Nat).resize 3).get 50 = .error .undefined :=
  ⟨by decide, by decide, by decide, rfl⟩

/-- C11, amended. After `p.resize(n)` the pool has exactly `n` slots; every old
slot below `n` keeps its value and every new slot holds the default value. So
for `n` not below the old size the new size is `max(old size, n)` and every
slot that existed before keeps its value. -/
theorem pool_resize_exact {V : Type} [Inhabited V] (p : Pool V) (n : Nat) :
    (p.resize n).get_size = n ∧
    (∀ i, i < p.get_size → i < n → (p.resize n).get i = p.get i) ∧
    (∀ i, p.get_size ≤ i → i < n → (p.resize n).get i = .ok default) ∧
    (p.get_size ≤ n →
      (p.resize n).get_size = max p.get_size n ∧
      ∀ i, i < p.get_size → (p.resize n).get i = p.get i) := by
  have h1 : (p.resize n).get_size = n := vector_resize_length n default p.data
  have h2 : ∀ i, i < p.get_size → i < n → (p.resize n).get i = p.get i := by
    intro i hi hn
    unfold Pool.get vector_at
    simp only [Pool.resize, vector_resize_get_lt n default p.data hi hn]
  refine ⟨h1, h2, ?_, ?_⟩
  · intro i hi hn
    unfold Pool.get vector_at
    simp only [Pool.resize, vector_resize_get_new n default p.data hi hn]
  · intro hle
    refine ⟨by rw [h1]; omega, fun i hi => h2 i hi (by omega)⟩

/-- The pool with the three values 4, 5, 6 resized with `resize(5)`: five slots,
the old values kept. -/
theorem pool_resize_exact_witness :
    (⟨[4, 5, 6]⟩ : Pool Nat).get_size ≤ 5 ∧
    ((⟨[4, 5, 6]⟩ : Pool Nat).resize 5).get_size = max (⟨[4, 5, 6]⟩ : Pool Nat).get_size 5 ∧
    ((⟨[4, 5, 6]⟩ : Pool Nat).resize 5).get 2 = (⟨[4, 5, 6]⟩ : Pool Nat).get 2 :=
  ⟨by decide, ((pool_resize_exact (⟨[4, 5, 6]⟩ : Pool Nat) 5).2.2.2 (by decide)).1,
    ((pool_resize_exact (⟨[4, 5, 6]⟩ : Pool Nat) 5).2.2.2 (by decide)).2 2 (by decide)⟩

/-! ## C13: the member list of a system -/

/-- C13. `add_ent_to_sys(e)` leaves the old member list with `e` appended at the
end, also when `e` is already in it; `rm_ent_from_sys(e)` leaves the old list
without the elements whose id is the id of `e`: the result is a sublist of the
old list (relative order kept), no element of it has the id of `e`, so `e` does
not occur in it, and every other entity occurs as often as before. Neither
changes the required signature. -/
theorem system_member_list_ops (s : System) (e : Entity) :
    (s.add_ent_to_sys e).get_sys_ents = s.get_sys_ents ++ [e] ∧
    (s.add_ent_to_sys e).get_comp_sign = s.get_comp_sign ∧
    (s.rm_ent_from_sys e).get_sys_ents
      = s.get_sys_ents.filter (fun m => decide (m.id ≠ e.id)) ∧
    (s.rm_ent_from_sys e).get_sys_ents.Sublist s.get_sys_ents ∧
    (∀ m ∈ (s.rm_ent_from_sys e).get_sys_ents, m.id ≠ e.id) ∧
    e ∉ (s.rm_ent_from_sys e).get_sys_ents ∧
    (∀ m : Entity, m.id ≠ e.id →
      (s.rm_ent_from_sys e).get_sys_ents.count m = s.get_sys_ents.count m) ∧
    (s.rm_ent_from_sys e).get_comp_sign = s.get_comp_sign := by
  have hmem : ∀ m ∈ (s.rm_ent_from_sys e).get_sys_ents, m.id ≠ e.id := by
    intro m hm
    simp only [System.rm_ent_from_sys, System.get_sys_ents, List.mem_filter] at hm
    intro heq
    simp [heq] at hm
  refine ⟨rfl, rfl, ?_, List.filter_sublist _, hmem, fun h => hmem e h rfl, ?_, rfl⟩
  · simp only [System.rm_ent_from_sys, System.get_sys_ents]
    apply List.filter_congr
    intro m _
    by_cases h : e.id = m.id
    · simp [h]
    · have : ¬ m.id = e.id := fun h1 => h h1.symm
      simp [h, this]
  · intro m hm
    simp only [System.rm_ent_from_sys, System.get_sys_ents]
    rw [List.count_filter]
    have : ¬ e.id = m.id := fun h1 => hm h1.symm
    simp [this]

/-- The list `[1, 2, 1, 3]` of ids: appending entity 1 again gives
`[1, 2, 1, 3, 1]`, and removing entity 1 gives `[2, 3]`. -/
theorem system_member_list_ops_witness :
    ((⟨Signature.empty, [⟨1⟩, ⟨2⟩, ⟨1⟩, ⟨3⟩]⟩ : System).add_ent_to_sys ⟨1⟩).get_sys_ents
      = [⟨1⟩, ⟨2⟩, ⟨1⟩, ⟨3⟩, ⟨1⟩] ∧
    ((⟨Signature.empty, [⟨1⟩, ⟨2⟩, ⟨1⟩, ⟨3⟩]⟩ : System).rm_ent_from_sys ⟨1⟩).get_sys_ents
      = [⟨2⟩, ⟨3⟩] ∧
    (⟨1⟩ : Entity) ∉
      ((⟨Signature.empty, [⟨1⟩, ⟨2⟩, ⟨1⟩, ⟨3⟩]⟩ : System).rm_ent_from_sys ⟨1⟩).get_sys_ents :=
  ⟨by decide, by decide,
    (system_member_list_ops ⟨Signature.empty, [⟨1⟩, ⟨2⟩, ⟨1⟩, ⟨3⟩]⟩ ⟨1⟩).2.2.2.2.2.1⟩

/-! ## C14: what `rm_comp` leaves alone -/

/-- C14. Whenever `rm_comp<T>(e)` returns, the pools, the systems, the pending
set, the kill set and the entity counter are as before, the signature table has
the same length and the same signature for every other entity, and the
signature of `e` differs from its old one at most in bit `id(T)`, which is
clear. -/
theorem rm_comp_frame {V : Type} (T : Nat) (e : Entity) (w w1 : World V)
    (h : rm_comp T e w = .ok w1) :
    w1.reg.comp_pools = w.reg.comp_pools ∧
    w1.reg.systems = w.reg.systems ∧
    w1.reg.ents_to_add = w.reg.ents_to_add ∧
    w1.reg.ents_to_kill = w.reg.ents_to_kill ∧
    w1.reg.num_ents = w.reg.num_ents ∧
    w1.reg.ent_comp_signs.length = w.reg.ent_comp_signs.length ∧
    (∀ j, j ≠ e.id → w1.reg.ent_comp_signs[j]? = w.reg.ent_comp_signs[j]?) ∧
    ∃ sg sg1, w.reg.ent_comp_signs[e.id]? = some sg ∧
      w1.reg.ent_comp_signs[e.id]? = some sg1 ∧
      sg1.bits.testBit (Component.get_id T w.icomp).1 = false ∧
      ∀ i, i ≠ (Component.get_id T w.icomp).1 → sg1.bits.testBit i = sg.bits.testBit i := by
  obtain ⟨sg, sg1, hsg, hsg1, rfl⟩ := rm_comp_inv h
  refine ⟨rfl, rfl, rfl, rfl, rfl, by simp, ?_, sg, sg1, vector_at_eq_ok.mp hsg, ?_, ?_, ?_⟩
  · intro j hj
    simp only [List.getElem?_set]
    rw [if_neg (fun h1 => hj h1.symm)]
  · exact List.getElem?_set_self (vector_at_lt hsg)
  · rw [Signature.testBit_set_false hsg1]
    simp
  · intro i hi
    rw [Signature.testBit_set_false hsg1]
    simp [hi]

/-- In `scenario_B_readded` entity 0 holds component type 0; `rm_comp<0>` leaves
the pool, with the value 9 in slot 0, as it is. -/
theorem rm_comp_frame_witness :
    rm_comp 0 ⟨0⟩ scenario_B_readded = .ok scenario_B_removed ∧
    scenario_B_removed.reg.comp_pools = scenario_B_readded.reg.comp_pools ∧
    get_comp 0 ⟨0⟩ scenario_B_removed = .ok (9, scenario_B_removed) :=
  ⟨rfl, (rm_comp_frame 0 ⟨0⟩ scenario_B_readded scenario_B_removed rfl).1, rfl⟩

/-! ## C17: a second `update` -/

/-- C17. In every reachable state `update()` returns; and whenever `update()`
returns, the pending set is empty afterwards and a second `update()` right after
it returns the very same registry: it adds no entity to any system and changes
nothing else. -/
theorem update_idempotent {V : Type} [Inhabited V] (w : World V) :
    (Reachable w → ∃ r1, w.reg.update = .ok r1) ∧
    ∀ r1, w.reg.update = .ok r1 → r1.ents_to_add = [] ∧ r1.update = .ok r1 := by
  constructor
  · intro hr
    obtain ⟨b, hb⟩ := reachable_inv hr
    exact update_total w.reg (pending_lt hb)
  · intro r1 h
    obtain rfl := update_inv h
    exact ⟨rfl, rfl⟩

/-- The registry of Scenario A after `update()`: a second `update()` returns it
unchanged. -/
theorem update_idempotent_witness :
    scenario_A_world.reg.update = .ok scenario_A_updated ∧
    scenario_A_updated.ents_to_add = [] ∧
    scenario_A_updated.update = .ok scenario_A_updated :=
  ⟨rfl, (update_idempotent scenario_A_world).2 scenario_A_updated rfl⟩

/-! ## More on what `add_comp` does -/

theorem add_comp_inv_full {V : Type} [Inhabited V] {T : Nat} {e : Entity} {obj : V}
    {w w1 : World V} (h : add_comp T e obj w = .ok w1) :
    ∃ (slot : Option (Pool V)) (sg sg1 : Signature),
      (add_comp_pools (Component.get_id T w.icomp).1 w.reg.comp_pools)[
        (Component.get_id T w.icomp).1]? = some slot ∧
      e.id < (add_comp_pool slot e.id w.reg.num_ents).data.length ∧
      w.reg.ent_comp_signs[e.id]? = some sg ∧
      sg.set (Component.get_id T w.icomp).1 true = .ok sg1 ∧
      w1 = { icomp := (Component.get_id T w.icomp).2
             reg := { w.reg with
               comp_pools :=
                 (add_comp_pools (Component.get_id T w.icomp).1 w.reg.comp_pools).set
                   (Component.get_id T w.icomp).1
                   (some ⟨(add_comp_pool slot e.id w.reg.num_ents).data.set e.id obj⟩)
               ent_comp_signs := w.reg.ent_comp_signs.set e.id sg1 } } := by
  unfold add_comp at h
  simp only at h
  split at h
  · cases h
  · rename_i slot hslot
    split at h
    · cases h
    · rename_i pool2 hset
      split at h
      · cases h
      · rename_i sg hsg
        split at h
        · cases h
        · rename_i sg1 hsg1
          obtain ⟨hlt, rfl⟩ := Pool.set_inv hset
          cases h
          exact ⟨slot, sg, sg1, vector_at_eq_ok.mp hslot, hlt, vector_at_eq_ok.mp hsg, hsg1, rfl⟩

theorem add_comp_pools_get {V : Type} (c : Nat) (pools : List (Option (Pool V))) {j : Nat}
    {p : Pool V} :
    (add_comp_pools c pools)[j]? = some (some p) ↔ pools[j]? = some (some p) := by
  unfold add_comp_pools
  split
  · rename_i hge
    by_cases hj : j < pools.length
    · rw [vector_resize_get_lt (c + 1) none pools hj (by omega)]
    · have hnone : pools[j]? = none := List.getElem?_eq_none (by omega)
      rw [hnone]
      by_cases hj1 : j < c + 1
      · rw [vector_resize_get_new (c + 1) none pools (by omega) hj1]
        simp
      · rw [List.getElem?_eq_none (by rw [vector_resize_length]; omega)]
  · rfl

theorem add_comp_pool_size {V : Type} [Inhabited V] (p : Pool V) (ent_id n : Nat)
    (h : ent_id < (add_comp_pool (some p) ent_id n).data.length) :
    p.get_size ≤ (add_comp_pool (some p) ent_id n).get_size ∧
    ∀ i, i < p.get_size → (add_comp_pool (some p) ent_id n).data[i]? = p.data[i]? := by
  unfold add_comp_pool at h ⊢
  simp only at h ⊢
  by_cases hge : ent_id ≥ p.get_size
  · rw [if_pos hge] at h ⊢
    have hn : ent_id < n := by
      simpa [Pool.resize, vector_resize_length] using h
    refine ⟨?_, ?_⟩
    · simp only [Pool.get_size, Pool.resize, vector_resize_length]
      simp only [Pool.get_size] at hge
      omega
    · intro i hi
      simp only [Pool.get_size] at hi hge
      exact vector_resize_get_lt n default p.data hi (by omega)
  · rw [if_neg hge]
    exact ⟨Nat.le_refl _, fun i _ => rfl⟩

/-! ## C12: pool growth -/

theorem construct_icomp (reqs : List Nat) :
    ∀ (s : System) (ic : Icomp) (r : System × Icomp),
      System.construct reqs s ic = .ok r → r.2 = Icomp.calls reqs ic := by
  induction reqs with
  | nil => intro s ic r h; simp only [System.construct] at h; cases h; rfl
  | cons T Ts ih =>
    intro s ic r h
    simp only [System.construct] at h
    split at h
    · rename_i r1 h1
      rw [ih _ _ _ h]
      unfold System.req_comp at h1
      simp only at h1
      split at h1
      · cases h1; rfl
      · cases h1
    · cases h

/-- Every call changes the id state only by `get_id` calls. -/
theorem step_icomp {V : Type} [Inhabited V] {op : Op V} {w w1 : World V} {out : List Entity}
    (h : step op w = .ok (w1, out)) : ∃ Ts, w1.icomp = Icomp.calls Ts w.icomp := by
  cases op with
  | create_ent =>
    simp only [step] at h
    cases h
    exact ⟨[], rfl⟩
  | add_comp T e obj =>
    simp only [step] at h
    obtain ⟨w2, h2, hw⟩ := Except.map_eq_ok h
    cases hw
    obtain ⟨pools, data, sg, sg1, -, -, -, -, rfl⟩ := add_comp_inv h2
    exact ⟨[T], rfl⟩
  | rm_comp T e =>
    simp only [step] at h
    obtain ⟨w2, h2, hw⟩ := Except.map_eq_ok h
    cases hw
    obtain ⟨sg, sg1, -, -, rfl⟩ := rm_comp_inv h2
    exact ⟨[T], rfl⟩
  | has_comp T e =>
    simp only [step] at h
    obtain ⟨r, h2, hw⟩ := Except.map_eq_ok h
    cases hw
    obtain ⟨sg, -, -, hr⟩ := has_comp_inv h2
    rw [hr]
    exact ⟨[T], rfl⟩
  | get_comp T e =>
    simp only [step] at h
    obtain ⟨r, h2, hw⟩ := Except.map_eq_ok h
    cases hw
    rw [get_comp_inv h2]
    exact ⟨[T], rfl⟩
  | add_sys Tsys reqs =>
    simp only [step] at h
    obtain ⟨w2, h2, hw⟩ := Except.map_eq_ok h
    cases hw
    obtain ⟨r, hr, rfl⟩ := add_sys_inv h2
    exact ⟨reqs, construct_icomp reqs _ _ _ hr⟩
  | rm_sys Tsys =>
    simp only [step] at h
    obtain ⟨r, h2, hw⟩ := Except.map_eq_ok h
    cases hw
    exact ⟨[], rfl⟩
  | update =>
    simp only [step] at h
    obtain ⟨r, h2, hw⟩ := Except.map_eq_ok h
    cases hw
    exact ⟨[], rfl⟩

/-- No call removes a pool or makes one smaller. -/
theorem step_pool_mono {V : Type} [Inhabited V] {op : Op V} {w w1 : World V}
    {out : List Entity} (h : step op w = .ok (w1, out)) {c : Nat} {p : Pool V}
    (hp : w.reg.comp_pools[c]? = some (some p)) :
    ∃ p1, w1.reg.comp_pools[c]? = some (some p1) ∧ p.get_size ≤ p1.get_size := by
  cases op with
  | create_ent =>
    simp only [step] at h
    cases h
    exact ⟨p, hp, Nat.le_refl _⟩
  | add_comp T e obj =>
    simp only [step] at h
    obtain ⟨w2, h2, hw⟩ := Except.map_eq_ok h
    cases hw
    obtain ⟨slot, sg, sg1, hslot, hlt, -, -, rfl⟩ := add_comp_inv_full h2
    have hp1 := (add_comp_pools_get (Component.get_id T w.icomp).1 w.reg.comp_pools).mpr hp
    simp only [List.getElem?_set]
    by_cases hc : (Component.get_id T w.icomp).1 = c
    · subst hc
      rw [hslot] at hp1
      cases hp1
      rw [if_pos rfl, if_pos (List.getElem?_eq_some_iff.mp hslot).1]
      refine ⟨_, rfl, ?_⟩
      have := (add_comp_pool_size p e.id w.reg.num_ents hlt).1
      simpa [Pool.get_size] using this
    · rw [if_neg hc]
      exact ⟨p, hp1, Nat.le_refl _⟩
  | rm_comp T e =>
    simp only [step] at h
    obtain ⟨w2, h2, hw⟩ := Except.map_eq_ok h
    cases hw
    obtain ⟨sg, sg1, -, -, rfl⟩ := rm_comp_inv h2
    exact ⟨p, hp, Nat.le_refl _⟩
  | has_comp T e =>
    simp only [step] at h
    obtain ⟨r, h2, hw⟩ := Except.map_eq_ok h
    cases hw
    obtain ⟨sg, -, -, hr⟩ := has_comp_inv h2
    rw [hr]
    exact ⟨p, hp, Nat.le_refl _⟩
  | get_comp T e =>
    simp only [step] at h
    obtain ⟨r, h2, hw⟩ := Except.map_eq_ok h
    cases hw
    rw [get_comp_inv h2]
    exact ⟨p, hp, Nat.le_refl _⟩
  | add_sys Tsys reqs =>
    simp only [step] at h
    obtain ⟨w2, h2, hw⟩ := Except.map_eq_ok h
    cases hw
    obtain ⟨r, hr, rfl⟩ := add_sys_inv h2
    exact ⟨p, hp, Nat.le_refl _⟩
  | rm_sys Tsys =>
    simp only [step] at h
    obtain ⟨r, h2, hw⟩ := Except.map_eq_ok h
    cases hw
    obtain ⟨-, rfl⟩ := rm_sys_inv h2
    exact ⟨p, hp, Nat.le_refl _⟩
  | update =>
    simp only [step] at h
    obtain ⟨r, h2, hw⟩ := Except.map_eq_ok h
    cases hw
    obtain rfl := update_inv h2
    exact ⟨p, hp, Nat.le_refl _⟩

theorem get_comp_of_pool {V : Type} {T c : Nat} {e : Entity} {w : World V} {p : Pool V}
    (hid : w.icomp.ids.lookup T = some c) (hp : w.reg.comp_pools[c]? = some (some p))
    (he : e.id < p.get_size) : ∃ v, get_comp T e w = .ok (v, w) := by
  obtain ⟨v, hv⟩ := @vector_at_of_lt _ p.data e.id he
  refine ⟨v, ?_⟩
  unfold get_comp
  simp only [get_id_of_lookup hid, vector_at_eq_ok.mpr hp, Pool.get, Entity.get_id, hv]

/-- C12. In a reachable state and for a created entity `e` (the N-th created
entity has id N - 1), `add_comp<T>(e, ...)` never indexes out of bounds (it
returns or throws `std::out_of_range`); when it returns, the pool of `T` has at
least `id(e) + 1 = N` slots; and in every state reached later the pool of `T`
still has at least that many slots, so that `get_comp<T>(e)` reads a slot
inside the pool. -/
theorem pool_growth {V : Type} [Inhabited V] (T : Nat) (e : Entity) (obj : V) (w : World V)
    (hr : Reachable w) (he : e.id < w.reg.num_ents) :
    add_comp T e obj w ≠ .error .undefined ∧
    ∀ w1, add_comp T e obj w = .ok w1 →
      (∃ p, w1.reg.comp_pools[(Component.get_id T w1.icomp).1]? = some (some p) ∧
        e.id + 1 ≤ p.get_size) ∧
      ∀ ops w2 out, run ops w1 = .ok (w2, out) →
        ∃ p v, w2.reg.comp_pools[(Component.get_id T w2.icomp).1]? = some (some p) ∧
          e.id + 1 ≤ p.get_size ∧ get_comp T e w2 = .ok (v, w2) := by
  obtain ⟨b, hlen, -⟩ := reachable_inv hr
  constructor
  · by_cases hid : (Component.get_id T w.icomp).1 < MAX_COMPS
    · obtain ⟨w1, h1⟩ := add_comp_total obj hlen he hid
      rw [h1]
      intro hc
      cases hc
    · rw [add_comp_out_of_range obj hlen he (by omega)]
      intro hc
      cases hc
  · intro w1 h
    obtain ⟨pools, data, sg, sg1, hp, hd, -, -, rfl⟩ := add_comp_inv h
    have hlk := get_id_lookup T w.icomp
    have hbase : ∃ p, (pools.set (Component.get_id T w.icomp).1
        (some (⟨data.set e.id obj⟩ : Pool V)))[(Component.get_id T w.icomp).1]?
          = some (some p) ∧ e.id + 1 ≤ p.get_size :=
      ⟨⟨data.set e.id obj⟩, List.getElem?_set_self hp, by
        simp only [Pool.get_size, List.length_set]; omega⟩
    refine ⟨?_, ?_⟩
    · simp only [get_id_of_lookup hlk]
      exact hbase
    · intro ops w2 out hrun
      have hinv : ∃ p, w2.icomp.ids.lookup T = some (Component.get_id T w.icomp).1 ∧
          w2.reg.comp_pools[(Component.get_id T w.icomp).1]? = some (some p) ∧
          e.id + 1 ≤ p.get_size := by
        refine run_induct
          (fun x => ∃ p, x.icomp.ids.lookup T = some (Component.get_id T w.icomp).1 ∧
            x.reg.comp_pools[(Component.get_id T w.icomp).1]? = some (some p) ∧
            e.id + 1 ≤ p.get_size)
          (fun _ => true) ?_ ops _ w2 out (fun _ _ => rfl) ?_ hrun
        · intro op x x1 o _ hx hs
          obtain ⟨p, hx1, hx2, hx3⟩ := hx
          obtain ⟨Ts, hTs⟩ := step_icomp hs
          obtain ⟨p1, hp1, hle⟩ := step_pool_mono hs hx2
          exact ⟨p1, by rw [hTs]; exact calls_keeps T _ Ts _ hx1, hp1, by omega⟩
        · obtain ⟨p, hp1, hp2⟩ := hbase
          exact ⟨p, hlk, hp1, hp2⟩
      obtain ⟨p, h1, h2, h3⟩ := hinv
      obtain ⟨v, hv⟩ := @get_comp_of_pool V T _ e w2 p h1 h2 (by omega)
      exact ⟨p, v, by rw [get_id_of_lookup h1]; exact h2, h3, hv⟩

/-- Entity 110 is the 111th created entity; attaching component type 0 to it
resizes the new pool from 100 to 111 slots, and slot 110 is inside it. -/
theorem pool_growth_witness :
    Reachable growth_world ∧ (⟨110⟩ : Entity).id < growth_world.reg.num_ents ∧
    (growth_attached.reg.comp_pools[0]?.map (Option.map Pool.get_size)) = some (some 111) ∧
    ∃ p, growth_attached.reg.comp_pools[(Component.get_id 0 growth_attached.icomp).1]?
        = some (some p) ∧ (⟨110⟩ : Entity).id + 1 ≤ p.get_size :=
  ⟨reachable_of_run_ok rfl, (by rfl : (111 : Nat) ≤ _), rfl,
    ((pool_growth 0 ⟨110⟩ 6 growth_world (reachable_of_run_ok rfl)
      (by rfl : (111 : Nat) ≤ _)).2 growth_attached rfl).1⟩

/-! ## C15: `get_comp` without the component -/

theorem get_comp_of_slot {V : Type} {T c : Nat} {e : Entity} {w : World V} {p : Pool V}
    {v : V} (hid : w.icomp.ids.lookup T = some c)
    (hp : w.reg.comp_pools[c]? = some (some p)) (hv : p.data[e.id]? = some v) :
    get_comp T e w = .ok (v, w) := by
  unfold get_comp
  simp only [get_id_of_lookup hid, vector_at_eq_ok.mpr hp, Pool.get, Entity.get_id,
    vector_at_eq_ok.mpr hv]

/-- C15, counterexample. After attach (data 5) and `rm_comp`, `has_comp` is
`false` and `get_comp` returns the stale 5; for entity 1, which never had the
component, `has_comp` is `false` and `get_comp` returns the default value 0 of
the pool slot. Neither call yields an error. -/
theorem get_comp_unchecked_counterexample :
    has_comp 0 ⟨0⟩ scenario_B_world = .ok (false, scenario_B_world) ∧
    get_comp 0 ⟨0⟩ scenario_B_world = .ok (5, scenario_B_world) ∧
    has_comp 0 ⟨1⟩ never_attached_world = .ok (false, never_attached_world) ∧
    get_comp 0 ⟨1⟩ never_attached_world = .ok (0, never_attached_world) :=
  ⟨rfl, rfl, rfl, rfl⟩

/-- C15, amended. `get_comp<T>(e)` does not look at the signature: it returns
the content of slot `id(e)` of the pool of `T` whenever that pool exists and has
the slot, and is undefined (no result, no distinguishable error) otherwise. In
particular after `add_comp<T>(e, obj)` and `rm_comp<T>(e)`, `has_comp<T>(e)` is
`false` and `get_comp<T>(e)` still returns `obj`. -/
theorem get_comp_ignores_signature {V : Type} [Inhabited V] (T : Nat) (e : Entity)
    (w : World V) :
    get_comp T e w =
      (match w.reg.comp_pools[(Component.get_id T w.icomp).1]? with
       | some (some pool) =>
         match pool.data[e.id]? with
         | some v => .ok (v, { w with icomp := (Component.get_id T w.icomp).2 })
         | none => .error .undefined
       | _ => .error .undefined) ∧
    ∀ obj w1 w2, add_comp T e obj w = .ok w1 → rm_comp T e w1 = .ok w2 →
      has_comp T e w2 = .ok (false, w2) ∧ get_comp T e w2 = .ok (obj, w2) := by
  constructor
  · unfold get_comp vector_at
    simp only [Pool.get, vector_at, Entity.get_id]
    cases h1 : w.reg.comp_pools[(Component.get_id T w.icomp).1]? with
    | none => rfl
    | some slot =>
      cases slot with
      | none => rfl
      | some pool =>
        simp only
        cases h2 : pool.data[e.id]? with
        | none => rfl
        | some v => rfl
  · intro obj w1 w2 h1 h2
    refine ⟨(rm_comp_post h2).1, ?_⟩
    obtain ⟨sg, sg1, -, -, rfl⟩ := rm_comp_inv h2
    obtain ⟨pools, data, sga, sgb, hp, hd, -, -, rfl⟩ := add_comp_inv h1
    have hlk := get_id_lookup T w.icomp
    simp only [get_id_of_lookup hlk]
    exact get_comp_of_slot hlk (List.getElem?_set_self hp) (List.getElem?_set_self hd)

/-- Scenario B: attach data 5 to entity 0, remove the component; `has_comp` is
`false` and `get_comp` returns 5. -/
theorem get_comp_ignores_signature_witness :
    add_comp 0 ⟨0⟩ 5 scenario_B_created = .ok scenario_B_attached ∧
    rm_comp 0 ⟨0⟩ scenario_B_attached = .ok scenario_B_detached ∧
    has_comp 0 ⟨0⟩ scenario_B_detached = .ok (false, scenario_B_detached) ∧
    get_comp 0 ⟨0⟩ scenario_B_detached = .ok (5, scenario_B_detached) :=
  ⟨rfl, rfl,
    (get_comp_ignores_signature 0 ⟨0⟩ scenario_B_created).2 5 scenario_B_attached
      scenario_B_detached rfl rfl⟩

/-! ## The systems map -/

theorem lookup_none_iff {β : Type} (k : Nat) (l : List (Nat × β)) :
    l.lookup k = none ↔ k ∉ l.map Prod.fst := by
  induction l with
  | nil => simp
  | cons p rest ih =>
    obtain ⟨k1, v⟩ := p
    simp only [List.lookup_cons, List.map_cons, List.mem_cons, not_or]
    by_cases h : k = k1
    · subst h
      simp
    · have : (k == k1) = false := by simpa using h
      rw [this]
      simp only [ih]
      exact ⟨fun h1 => ⟨h, h1⟩, fun h1 => h1.2⟩

theorem lookup_append_single {β : Type} (k k1 : Nat) (v : β) (l : List (Nat × β)) :
    (l ++ [(k1, v)]).lookup k =
      (match l.lookup k with
       | some x => some x
       | none => if k = k1 then some v else none) := by
  induction l with
  | nil =>
    simp only [List.nil_append, List.lookup_cons, List.lookup_nil]
    by_cases h : k = k1
    · subst h; simp
    · have : (k == k1) = false := by simpa using h
      simp [this, h]
  | cons p rest ih =>
    obtain ⟨k2, v2⟩ := p
    simp only [List.cons_append, List.lookup_cons]
    cases h : (k == k2) with
    | true => rfl
    | false => exact ih

theorem lookup_eraseP_ne {β : Type} (k k1 : Nat) (hne : k ≠ k1) (l : List (Nat × β)) :
    (l.eraseP (fun p => p.1 == k1)).lookup k = l.lookup k := by
  induction l with
  | nil => rfl
  | cons p rest ih =>
    obtain ⟨k2, v2⟩ := p
    by_cases h2 : k2 = k1
    · subst h2
      have hk : (k == k2) = false := by simpa using hne
      simp [List.eraseP_cons, List.lookup_cons, hk]
    · have hb : (k2 == k1) = false := by simpa using h2
      simp only [List.eraseP_cons, hb, List.lookup_cons, cond_false]
      cases h : (k == k2) with
      | true => rfl
      | false => exact ih

theorem lookup_eraseP_self {β : Type} (k : Nat) (l : List (Nat × β))
    (hnd : (l.map Prod.fst).Nodup) : (l.eraseP (fun p => p.1 == k)).lookup k = none := by
  induction l with
  | nil => rfl
  | cons p rest ih =>
    obtain ⟨k2, v2⟩ := p
    simp only [List.map_cons, List.nodup_cons] at hnd
    by_cases h2 : k2 = k
    · subst h2
      simp only [List.eraseP_cons, beq_self_eq_true, if_true]
      exact (lookup_none_iff k2 rest).mpr hnd.1
    · have hb : (k2 == k) = false := by simpa using h2
      have hb1 : (k == k2) = false := by simpa using (fun h => h2 h.symm : ¬ k = k2)
      simp only [List.eraseP_cons, hb, List.lookup_cons, hb1, cond_false]
      exact ih hnd.2

theorem length_eraseP_of_lookup {β : Type} (k : Nat) (l : List (Nat × β))
    (h : (l.lookup k).isSome = true) :
    (l.eraseP (fun p => p.1 == k)).length + 1 = l.length := by
  induction l with
  | nil => simp at h
  | cons p rest ih =>
    obtain ⟨k2, v2⟩ := p
    by_cases h2 : k2 = k
    · subst h2
      simp [List.eraseP_cons]
    · have hb : (k2 == k) = false := by simpa using h2
      have hb1 : (k == k2) = false := by simpa using (fun h => h2 h.symm : ¬ k = k2)
      simp only [List.lookup_cons, hb1] at h
      simp only [List.eraseP_cons, hb, List.length_cons, cond_false]
      have := ih h
      omega

/-- What a call can do to the systems map: nothing, add a memberless system
under a new key, erase a registered key, or append matching pending entities to
every member list. -/
theorem step_systems_cases {V : Type} [Inhabited V] {op : Op V} {w w1 : World V}
    {out : List Entity} (h : step op w = .ok (w1, out)) :
    w1.reg.systems = w.reg.systems ∨
    (∃ K S, w.reg.systems.lookup K = none ∧ S.ents = [] ∧
      w1.reg.systems = w.reg.systems ++ [(K, S)]) ∨
    (∃ K, (w.reg.systems.lookup K).isSome = true ∧
      w1.reg.systems = w.reg.systems.eraseP (fun p => p.1 == K)) ∨
    w1.reg.systems = w.reg.systems.map (System.with_added w.reg w.reg.ents_to_add) := by
  cases op with
  | create_ent =>
    simp only [step] at h
    cases h
    exact Or.inl rfl
  | add_comp T e obj =>
    simp only [step] at h
    obtain ⟨w2, h2, hw⟩ := Except.map_eq_ok h
    cases hw
    obtain ⟨pools, data, sg, sg1, -, -, -, -, rfl⟩ := add_comp_inv h2
    exact Or.inl rfl
  | rm_comp T e =>
    simp only [step] at h
    obtain ⟨w2, h2, hw⟩ := Except.map_eq_ok h
    cases hw
    obtain ⟨sg, sg1, -, -, rfl⟩ := rm_comp_inv h2
    exact Or.inl rfl
  | has_comp T e =>
    simp only [step] at h
    obtain ⟨r, h2, hw⟩ := Except.map_eq_ok h
    cases hw
    obtain ⟨sg, -, -, hr⟩ := has_comp_inv h2
    rw [hr]
    exact Or.inl rfl
  | get_comp T e =>
    simp only [step] at h
    obtain ⟨r, h2, hw⟩ := Except.map_eq_ok h
    cases hw
    rw [get_comp_inv h2]
    exact Or.inl rfl
  | add_sys Tsys reqs =>
    simp only [step] at h
    obtain ⟨w2, h2, hw⟩ := Except.map_eq_ok h
    cases hw
    obtain ⟨r, hr, rfl⟩ := add_sys_inv h2
    simp only
    cases hl : w.reg.systems.lookup Tsys with
    | some S => exact Or.inl (by simp)
    | none =>
      right; left
      exact ⟨Tsys, r.1, hl, System.construct_ents reqs _ _ _ hr, by simp⟩
  | rm_sys Tsys =>
    simp only [step] at h
    obtain ⟨r, h2, hw⟩ := Except.map_eq_ok h
    cases hw
    obtain ⟨hsome, rfl⟩ := rm_sys_inv h2
    exact Or.inr (Or.inr (Or.inl ⟨Tsys, hsome, rfl⟩))
  | update =>
    obtain ⟨-, rfl⟩ := step_update_inv h
    exact Or.inr (Or.inr (Or.inr rfl))

theorem step_keys_nodup {V : Type} [Inhabited V] (op : Op V) (w w1 : World V)
    (out : List Entity) (_ : (fun _ : Op V => true) op = true)
    (hn : (w.reg.systems.map Prod.fst).Nodup) (h : step op w = .ok (w1, out)) :
    (w1.reg.systems.map Prod.fst).Nodup := by
  rcases step_systems_cases h with h1 | ⟨K, S, hK, -, h1⟩ | ⟨K, -, h1⟩ | h1
  · rw [h1]; exact hn
  · rw [h1, List.map_append, List.nodup_append]
    refine ⟨hn, by simp, ?_⟩
    intro a ha hb
    simp only [List.map_cons, List.map_nil, List.mem_singleton] at hb
    subst hb
    exact (lookup_none_iff a _).mp hK ha
  · rw [h1]
    exact hn.sublist ((List.eraseP_sublist _).map _)
  · rw [h1, List.map_map]
    exact hn

theorem reachable_keys_nodup {V : Type} [Inhabited V] {w : World V} (hr : Reachable w) :
    (w.reg.systems.map Prod.fst).Nodup := by
  obtain ⟨ops, out, hrun⟩ := hr
  exact run_induct (fun x => (x.reg.systems.map Prod.fst).Nodup) (fun _ => true)
    step_keys_nodup ops World.init w out (fun _ _ => rfl) List.nodup_nil hrun

/-! ## C16: `rm_sys` -/

/-- C16, counterexample. On the empty registry system type 7 is not registered
and `rm_sys<7>()` erases `end()`: the result is undefined, neither the unchanged
registry nor a reported outcome. -/
theorem rm_sys_unregistered_counterexample :
    (Registry.empty : Registry Nat).has_sys 7 = false ∧
    (Registry.empty : Registry Nat).rm_sys 7 = .error .undefined ∧
    (Registry.empty : Registry Nat).rm_sys 7 ≠ .ok Registry.empty :=
  ⟨rfl, rfl, fun h => by cases h⟩

/-- C16, amended. In every reachable state `rm_sys<S>()` returns exactly when
`S` is registered; then `has_sys<S>()` is `false` afterwards, every other system
type is registered as before with the same system (required signature and member
list), one system fewer is registered, and nothing else in the registry changes.
When `S` is not registered the call is `erase(end())`, which is undefined. -/
theorem rm_sys_registered {V : Type} [Inhabited V] (Tsys : Nat) (w : World V)
    (hr : Reachable w) :
    (w.reg.has_sys Tsys = false → w.reg.rm_sys Tsys = .error .undefined) ∧
    (w.reg.has_sys Tsys = true → ∃ r1, w.reg.rm_sys Tsys = .ok r1) ∧
    ∀ r1, w.reg.rm_sys Tsys = .ok r1 →
      w.reg.has_sys Tsys = true ∧
      r1.has_sys Tsys = false ∧
      (∀ K, K ≠ Tsys → r1.systems.lookup K = w.reg.systems.lookup K) ∧
      r1.systems.length + 1 = w.reg.systems.length ∧
      r1.num_ents = w.reg.num_ents ∧ r1.comp_pools = w.reg.comp_pools ∧
      r1.ent_comp_signs = w.reg.ent_comp_signs ∧ r1.ents_to_add = w.reg.ents_to_add ∧
      r1.ents_to_kill = w.reg.ents_to_kill := by
  refine ⟨?_, ?_, ?_⟩
  · intro h
    unfold Registry.has_sys at h
    unfold Registry.rm_sys
    cases hl : w.reg.systems.lookup Tsys with
    | none => rfl
    | some S => rw [hl] at h; cases h
  · intro h
    unfold Registry.has_sys at h
    unfold Registry.rm_sys
    cases hl : w.reg.systems.lookup Tsys with
    | none => rw [hl] at h; cases h
    | some S => exact ⟨_, rfl⟩
  · intro r1 h
    obtain ⟨hsome, rfl⟩ := rm_sys_inv h
    refine ⟨hsome, ?_, ?_, length_eraseP_of_lookup Tsys _ hsome, rfl, rfl, rfl, rfl, rfl⟩
    · unfold Registry.has_sys
      simp only
      rw [lookup_eraseP_self Tsys _ (reachable_keys_nodup hr)]
      rfl
    · intro K hK
      exact lookup_eraseP_ne K Tsys hK _

/-- With the systems 7 and 8 registered, `rm_sys<7>()` returns; afterwards 7 is
not registered and system 8 still has its member, entity 0. -/
theorem rm_sys_registered_witness :
    Reachable scenario_C_world ∧
    scenario_C_world.reg.rm_sys 7 = .ok two_systems_removed ∧
    members 8 two_systems_removed = some [⟨0⟩] ∧
    two_systems_removed.has_sys 7 = false ∧
    (∀ K, K ≠ 7 →
      two_systems_removed.systems.lookup K = scenario_C_world.reg.systems.lookup K) :=
  ⟨reachable_of_run_ok rfl, rfl, rfl,
    ((rm_sys_registered 7 scenario_C_world (reachable_of_run_ok rfl)).2.2
      two_systems_removed rfl).2.1,
    ((rm_sys_registered 7 scenario_C_world (reachable_of_run_ok rfl)).2.2
      two_systems_removed rfl).2.2.1⟩

/-! ## C20: `add_sys` -/

theorem bounded_get_id (T : Nat) {ic : Icomp} (h : ic.Bounded) :
    (Component.get_id T ic).2.Bounded ∧
    (Component.get_id T ic).1 < (Component.get_id T ic).2.next_id ∧
    (Component.get_id T ic).2.next_id ≤ ic.next_id + 1 := by
  unfold Component.get_id
  cases hl : ic.ids.lookup T with
  | some i =>
    exact ⟨h, h _ (lookup_some_mem T i _ hl), Nat.le_succ _⟩
  | none =>
    refine ⟨?_, Nat.lt_succ_self _, Nat.le_refl _⟩
    intro p hp
    rcases List.mem_cons.mp hp with rfl | hp1
    · exact Nat.lt_succ_self _
    · exact Nat.lt_succ_of_lt (h p hp1)

theorem bounded_calls (Ts : List Nat) : ∀ ic : Icomp, ic.Bounded → (Icomp.calls Ts ic).Bounded := by
  induction Ts with
  | nil => intro ic h; exact h
  | cons T rest ih => intro ic h; exact ih _ (bounded_get_id T h).1

theorem reachable_bounded {V : Type} [Inhabited V] {w : World V} (hr : Reachable w) :
    w.icomp.Bounded := by
  obtain ⟨ops, out, hrun⟩ := hr
  refine run_induct (fun x => x.icomp.Bounded) (fun _ => true) ?_ ops World.init w out
    (fun _ _ => rfl) (fun p hp => by cases hp) hrun
  intro op x x1 o _ hx hs
  obtain ⟨Ts, hTs⟩ := step_icomp hs
  rw [hTs]
  exact bounded_calls Ts _ hx

theorem construct_ok (reqs : List Nat) :
    ∀ (s : System) (ic : Icomp), ic.Bounded → ic.next_id + reqs.length ≤ MAX_COMPS →
      ∃ r, System.construct reqs s ic = .ok r := by
  induction reqs with
  | nil => intro s ic _ _; exact ⟨_, rfl⟩
  | cons T Ts ih =>
    intro s ic hb hn
    obtain ⟨hb1, hlt, hle⟩ := bounded_get_id T hb
    simp only [List.length_cons] at hn
    obtain ⟨sg, hsg⟩ := Signature.set_ok s.comp_sign true
      (show (Component.get_id T ic).1 < MAX_COMPS by omega)
    simp only [System.construct, System.req_comp, hsg]
    exact ih _ _ hb1 (by omega)

/-- C20. Whenever `add_sys<S>()` returns: if `S` was registered, the registry is
exactly as before (the registered system, its required signature, its member
list and the number of systems are unchanged; the newly constructed system is
dropped); if `S` was not registered, `has_sys<S>()` is `true` with an empty
member list, every other system type is registered as before with the same
system, one more system is registered and nothing else in the registry changes.
In a reachable state the call returns when the ids of the required component
types fit the signature (counter plus number of requirements at most 32). -/
theorem add_sys_keeps_registered {V : Type} [Inhabited V] (Tsys : Nat) (reqs : List Nat)
    (w : World V) :
    (∀ w1, add_sys Tsys reqs w = .ok w1 →
      (w.reg.has_sys Tsys = true → w1.reg = w.reg) ∧
      (w.reg.has_sys Tsys = false →
        w1.reg.has_sys Tsys = true ∧ members Tsys w1.reg = some [] ∧
        (∀ K, K ≠ Tsys → w1.reg.systems.lookup K = w.reg.systems.lookup K) ∧
        w1.reg.systems.length = w.reg.systems.length + 1 ∧
        w1.reg.num_ents = w.reg.num_ents ∧ w1.reg.comp_pools = w.reg.comp_pools ∧
        w1.reg.ent_comp_signs = w.reg.ent_comp_signs ∧
        w1.reg.ents_to_add = w.reg.ents_to_add ∧
        w1.reg.ents_to_kill = w.reg.ents_to_kill)) ∧
    (Reachable w → w.icomp.next_id + reqs.length ≤ MAX_COMPS →
      ∃ w1, add_sys Tsys reqs w = .ok w1) := by
  constructor
  · intro w1 h
    obtain ⟨r, hr, rfl⟩ := add_sys_inv h
    constructor
    · intro hs
      unfold Registry.has_sys at hs
      simp only [hs, if_true]
    · intro hs
      unfold Registry.has_sys at hs
      have hnone : w.reg.systems.lookup Tsys = none := by
        cases hl : w.reg.systems.lookup Tsys with
        | none => rfl
        | some S => rw [hl] at hs; cases hs
      refine ⟨?_, ?_, ?_, ?_, rfl, rfl, rfl, rfl, rfl⟩
      · simp only [Registry.has_sys, hnone, Option.isSome_none, Bool.false_eq_true, if_false,
          lookup_append_single, if_true]
        rfl
      · simp only [members, hnone, Option.isSome_none, Bool.false_eq_true, if_false,
          lookup_append_single, if_true, Option.map_some', System.get_sys_ents,
          System.construct_ents reqs _ _ _ hr]
        rfl
      · intro K hK
        simp only [hnone, Option.isSome_none, Bool.false_eq_true, if_false,
          lookup_append_single, if_neg hK]
        cases w.reg.systems.lookup K <;> rfl
      · simp only [hnone, Option.isSome_none, Bool.false_eq_true, if_false,
          List.length_append, List.length_singleton]
  · intro hr hn
    obtain ⟨r, hc⟩ := construct_ok reqs System.new w.icomp (reachable_bounded hr) hn
    unfold add_sys
    rw [hc]
    exact ⟨_, rfl⟩

/-- In `scenario_C_world` system type 7 is registered: `add_sys<7>` with other
requirements leaves the registry as it is; system type 9 is not registered:
`add_sys<9>` registers it without members. -/
theorem add_sys_keeps_registered_witness :
    scenario_C_world.reg.has_sys 7 = true ∧
    add_sys 7 [1] scenario_C_world = .ok readded_world ∧
    readded_world.reg = scenario_C_world.reg ∧
    scenario_C_world.reg.has_sys 9 = false ∧
    add_sys 9 [0] scenario_C_world = .ok added_world ∧
    added_world.reg.has_sys 9 = true ∧ members 9 added_world.reg = some [] :=
  ⟨rfl, rfl,
    ((add_sys_keeps_registered 7 [1] scenario_C_world).1 readded_world rfl).1 rfl,
    rfl, rfl,
    (((add_sys_keeps_registered 9 [0] scenario_C_world).1 added_world rfl).2 rfl).1,
    (((add_sys_keeps_registered 9 [0] scenario_C_world).1 added_world rfl).2 rfl).2.1⟩

/-! ## C18: `update` only appends pending entities -/

theorem lookup_some_mem_gen {β : Type} (k : Nat) (v : β) (l : List (Nat × β))
    (h : l.lookup k = some v) : (k, v) ∈ l := by
  induction l with
  | nil => simp at h
  | cons p rest ih =>
    obtain ⟨k1, v1⟩ := p
    simp only [List.lookup_cons] at h
    by_cases hk : k = k1
    · subst hk
      simp at h
      subst h
      exact List.mem_cons_self _ _
    · have : (k == k1) = false := by simpa using hk
      rw [this] at h
      exact List.mem_cons_of_mem _ (ih h)

theorem mem_set_insert (e x : Entity) (xs : List Entity) (h : x ∈ set_insert e xs) :
    x = e ∨ x ∈ xs := by
  induction xs with
  | nil =>
    simp only [set_insert, List.mem_singleton] at h
    exact Or.inl h
  | cons y rest ih =>
    simp only [set_insert] at h
    split at h
    · rcases List.mem_cons.mp h with h1 | h1
      · exact Or.inl h1
      · exact Or.inr h1
    · split at h
      · rcases List.mem_cons.mp h with h1 | h1
        · exact Or.inr (h1 ▸ List.mem_cons_self _ _)
        · rcases ih h1 with h2 | h2
          · exact Or.inl h2
          · exact Or.inr (List.mem_cons_of_mem _ h2)
      · exact Or.inr h

/-- From a state on, every pending entity and every member of the system
registered under `Tsys` has an id of at least `n0`. -/
theorem late_step {V : Type} [Inhabited V] (Tsys n0 : Nat) (op : Op V) (w w1 : World V)
    (out : List Entity) (_ : (fun _ : Op V => true) op = true)
    (hq : n0 ≤ w.reg.num_ents ∧ (∀ m ∈ w.reg.ents_to_add, n0 ≤ m.id) ∧
      ∀ p ∈ w.reg.systems, p.1 = Tsys → ∀ m ∈ p.2.ents, n0 ≤ m.id)
    (h : step op w = .ok (w1, out)) :
    n0 ≤ w1.reg.num_ents ∧ (∀ m ∈ w1.reg.ents_to_add, n0 ≤ m.id) ∧
      ∀ p ∈ w1.reg.systems, p.1 = Tsys → ∀ m ∈ p.2.ents, n0 ≤ m.id := by
  obtain ⟨hn, hpend, hsys⟩ := hq
  by_cases hu : op.not_update = true
  · have hsys1 : ∀ p ∈ w1.reg.systems, p.1 = Tsys → ∀ m ∈ p.2.ents, n0 ≤ m.id := by
      intro p hp hk m hm
      rcases step_systems h hu p hp with h1 | h1
      · exact hsys p h1 hk m hm
      · rw [h1] at hm
        cases hm
    rcases step_counts h hu with ⟨-, rfl, -⟩ | ⟨-, -, hn1, hp1, -⟩
    · refine ⟨?_, ?_, hsys1⟩
      · simp only [Registry.create_ent]
        omega
      · intro m hm
        simp only [Registry.create_ent] at hm
        rcases mem_set_insert _ _ _ hm with h1 | h1
        · rw [h1]
          exact hn
        · exact hpend m h1
    · exact ⟨by rw [hn1]; exact hn, by rw [hp1]; exact hpend, hsys1⟩
  · have : op = Op.update := by
      cases op <;> first | rfl | exact absurd rfl hu
    subst this
    obtain ⟨-, rfl⟩ := step_update_inv h
    refine ⟨hn, ?_, ?_⟩
    · intro m hm
      cases hm
    intro p hp hk m hm
    obtain ⟨q, hq, rfl⟩ := List.mem_map.mp hp
    simp only [System.with_added] at hk hm
    rcases List.mem_append.mp hm with h1 | h1
    · exact hsys q hq hk m h1
    · exact hpend m (List.mem_filter.mp h1).1

/-- C18. Whenever `update()` returns, the system registered under any key has
its old member list as a prefix of the new one, and every appended element was
in the pending set. Consequently, when `create_ent` has returned `e`, then
`update()` runs, and system type `S` is not registered at that point, `e` is in
no later state a member of a system registered under `S`, whatever its
signature is. -/
theorem update_only_appends {V : Type} [Inhabited V] (w1 : World V) :
    (∀ r1, w1.reg.update = .ok r1 → ∀ K S, w1.reg.systems.lookup K = some S →
      ∃ S1 added, r1.systems.lookup K = some S1 ∧
        S1.get_sys_ents = S.get_sys_ents ++ added ∧
        S1.get_comp_sign = S.get_comp_sign ∧ ∀ x ∈ added, x ∈ w1.reg.ents_to_add) ∧
    ∀ ops1 out1 e w2 o2 Tsys ops2 w3 out3,
      run ops1 World.init = .ok (w1, out1) → e ∈ out1 →
      step Op.update w1 = .ok (w2, o2) → w2.reg.has_sys Tsys = false →
      run ops2 w2 = .ok (w3, out3) →
      ∀ S, w3.reg.systems.lookup Tsys = some S → e ∉ S.get_sys_ents := by
  constructor
  · intro r1 h K S hS
    refine ⟨{ S with ents := S.ents ++ w1.reg.ents_to_add.filter (matches_sys w1.reg S) },
      w1.reg.ents_to_add.filter (matches_sys w1.reg S), ?_, rfl, rfl, ?_⟩
    · rw [update_lookup h, hS]
      rfl
    · intro x hx
      exact (List.mem_filter.mp hx).1
  · intro ops1 out1 e w2 o2 Tsys ops2 w3 out3 hrun1 he hup hnot hrun2 S hS hmem
    obtain ⟨hout, hn⟩ := run_created ops1 _ w1 out1 hrun1
    have heid : e.id < w1.reg.num_ents := by
      rw [hout] at he
      obtain ⟨i, hi, rfl⟩ := List.mem_map.mp he
      have := List.mem_range'_1.mp hi
      rw [hn]
      exact this.2
    obtain ⟨-, hw2⟩ := step_update_inv hup
    have hnum : w2.reg.num_ents = w1.reg.num_ents := by rw [hw2]
    have hpe : w2.reg.ents_to_add = [] := by rw [hw2]
    have hbase : w1.reg.num_ents ≤ w2.reg.num_ents ∧
        (∀ m ∈ w2.reg.ents_to_add, w1.reg.num_ents ≤ m.id) ∧
        ∀ p ∈ w2.reg.systems, p.1 = Tsys → ∀ m ∈ p.2.ents, w1.reg.num_ents ≤ m.id := by
      refine ⟨by rw [hnum], ?_, ?_⟩
      · intro m hm
        rw [hpe] at hm
        cases hm
      intro p hp hk
      exfalso
      unfold Registry.has_sys at hnot
      have hnone : w2.reg.systems.lookup Tsys = none := by
        cases hl : w2.reg.systems.lookup Tsys with
        | none => rfl
        | some S0 => rw [hl] at hnot; cases hnot
      exact (lookup_none_iff Tsys _).mp hnone (List.mem_map.mpr ⟨p, hp, hk⟩)
    have hfin := run_induct
      (fun x => w1.reg.num_ents ≤ x.reg.num_ents ∧
        (∀ m ∈ x.reg.ents_to_add, w1.reg.num_ents ≤ m.id) ∧
        ∀ p ∈ x.reg.systems, p.1 = Tsys → ∀ m ∈ p.2.ents, w1.reg.num_ents ≤ m.id)
      (fun _ => true) (late_step Tsys w1.reg.num_ents) ops2 w2 w3 out3
      (fun _ _ => rfl) hbase hrun2
    have hp : (Tsys, S) ∈ w3.reg.systems := by
      have := lookup_some_mem_gen Tsys S _ hS
      exact this
    have := hfin.2.2 (Tsys, S) hp rfl e hmem
    omega

/-- Entity 0 carries component type 0 and is processed by the first `update()`;
system type 7, requiring component type 0, is registered only afterwards. In
the final state entity 0 covers the required signature but the members of
system 7 are `[entity 1]`. -/
theorem update_only_appends_witness :
    late_system_w2.reg.has_sys 7 = false ∧
    members 7 late_system_w3.reg = some [⟨1⟩] ∧
    late_system_w3.reg.systems.map (fun p => matches_sys late_system_w3.reg p.2 ⟨0⟩)
      = [true] ∧
    ∀ S, late_system_w3.reg.systems.lookup 7 = some S → (⟨0⟩ : Entity) ∉ S.get_sys_ents :=
  ⟨rfl, rfl, rfl,
    (update_only_appends late_system_w1).2 late_system_before [⟨0⟩] ⟨0⟩ late_system_w2 [] 7
      late_system_after late_system_w3 (run_out late_system_after late_system_w2)
      (run_eq_of_ok rfl) (by decide) rfl rfl (run_eq_of_ok rfl)⟩

/-! ## C19: what `add_comp` leaves alone -/

theorem get_comp_ok_inv {V : Type} {T : Nat} {e : Entity} {w wa : World V} {v : V}
    (h : get_comp T e w = .ok (v, wa)) :
    ∃ p, w.reg.comp_pools[(Component.get_id T w.icomp).1]? = some (some p) ∧
      p.data[e.id]? = some v ∧ wa = { w with icomp := (Component.get_id T w.icomp).2 } := by
  unfold get_comp at h
  simp only at h
  split at h
  · cases h
  · cases h
  · rename_i pool hpool
    split at h
    · cases h
    · rename_i v1 hv
      cases h
      exact ⟨pool, vector_at_eq_ok.mp hpool, vector_at_eq_ok.mp hv, rfl⟩

theorem add_comp_keeps_value {V : Type} [Inhabited V] {T : Nat} {e e1 : Entity} {obj v : V}
    {w w1 : World V} {p : Pool V} (h : add_comp T e obj w = .ok w1) (hne : e1.id ≠ e.id)
    (hp : w.reg.comp_pools[(Component.get_id T w.icomp).1]? = some (some p))
    (hv : p.data[e1.id]? = some v) : get_comp T e1 w1 = .ok (v, w1) := by
  obtain ⟨slot, sg, sg1, hslot, hlt, -, -, rfl⟩ := add_comp_inv_full h
  have hp1 := (add_comp_pools_get (Component.get_id T w.icomp).1 w.reg.comp_pools).mpr hp
  rw [hslot] at hp1
  cases hp1
  have hi : e1.id < p.get_size := (List.getElem?_eq_some_iff.mp hv).1
  refine get_comp_of_slot (get_id_lookup T w.icomp)
    (List.getElem?_set_self (List.getElem?_eq_some_iff.mp hslot).1) ?_
  simp only [List.getElem?_set]
  rw [if_neg (fun h1 => hne h1.symm), (add_comp_pool_size p e.id w.reg.num_ents hlt).2 _ hi, hv]

theorem bitpool_step {V : Type} [Inhabited V] (op : Op V) (w w1 : World V)
    (out : List Entity) (_ : (fun _ : Op V => true) op = true) (hb : BitPool w)
    (h : step op w = .ok (w1, out)) : BitPool w1 := by
  intro j sg1 c hj hbit
  have hold : ∀ sg, w.reg.ent_comp_signs[j]? = some sg → sg.bits.testBit c = true →
      ∃ p, w1.reg.comp_pools[c]? = some (some p) ∧ j < p.get_size := by
    intro sg h1 h2
    obtain ⟨p, hp, hlt⟩ := hb j sg c h1 h2
    obtain ⟨p1, hp1, hle⟩ := step_pool_mono h hp
    exact ⟨p1, hp1, by omega⟩
  cases op with
  | create_ent =>
    simp only [step] at h
    cases h
    simp only [Registry.create_ent] at hj
    split at hj
    · rename_i hge
      by_cases hlt : j < w.reg.ent_comp_signs.length
      · rw [vector_resize_get_lt _ _ _ hlt (by omega)] at hj
        exact hold sg1 hj hbit
      · by_cases hlt1 : j < w.reg.num_ents + 1
        · rw [vector_resize_get_new _ _ _ (by omega) hlt1] at hj
          cases hj
          simp [Signature.empty] at hbit
        · rw [List.getElem?_eq_none (by rw [vector_resize_length]; omega)] at hj
          cases hj
    · exact hold sg1 hj hbit
  | add_comp T e obj =>
    simp only [step] at h
    obtain ⟨w2, h2, hw⟩ := Except.map_eq_ok h
    cases hw
    obtain ⟨pools, data, sg, sga, hp, hd, hsg, hsga, rfl⟩ := add_comp_inv h2
    simp only [List.getElem?_set] at hj
    by_cases hje : e.id = j
    · subst hje
      rw [if_pos rfl, if_pos (vector_at_lt hsg)] at hj
      cases hj
      rw [Signature.testBit_set_true hsga] at hbit
      by_cases hc : c = (Component.get_id T w.icomp).1
      · subst hc
        exact ⟨⟨data.set e.id obj⟩, List.getElem?_set_self hp, by
          simp only [Pool.get_size, List.length_set]; exact hd⟩
      · simp only [hc, decide_False, Bool.or_false] at hbit
        exact hold sg (vector_at_eq_ok.mp hsg) hbit
    · rw [if_neg hje] at hj
      exact hold sg1 hj hbit
  | rm_comp T e =>
    simp only [step] at h
    obtain ⟨w2, h2, hw⟩ := Except.map_eq_ok h
    cases hw
    obtain ⟨sg, sga, hsg, hsga, rfl⟩ := rm_comp_inv h2
    simp only [List.getElem?_set] at hj
    by_cases hje : e.id = j
    · subst hje
      rw [if_pos rfl, if_pos (vector_at_lt hsg)] at hj
      cases hj
      rw [Signature.testBit_set_false hsga] at hbit
      simp only [Bool.and_eq_true] at hbit
      exact hold sg (vector_at_eq_ok.mp hsg) hbit.1
    · rw [if_neg hje] at hj
      exact hold sg1 hj hbit
  | has_comp T e =>
    simp only [step] at h
    obtain ⟨r, h2, hw⟩ := Except.map_eq_ok h
    cases hw
    obtain ⟨sg, -, -, hr⟩ := has_comp_inv h2
    rw [hr] at hj
    exact hold sg1 hj hbit
  | get_comp T e =>
    simp only [step] at h
    obtain ⟨r, h2, hw⟩ := Except.map_eq_ok h
    cases hw
    rw [get_comp_inv h2] at hj
    exact hold sg1 hj hbit
  | add_sys Tsys reqs =>
    simp only [step] at h
    obtain ⟨w2, h2, hw⟩ := Except.map_eq_ok h
    cases hw
    obtain ⟨r, hr, rfl⟩ := add_sys_inv h2
    exact hold sg1 hj hbit
  | rm_sys Tsys =>
    simp only [step] at h
    obtain ⟨r, h2, hw⟩ := Except.map_eq_ok h
    cases hw
    obtain ⟨-, rfl⟩ := rm_sys_inv h2
    exact hold sg1 hj hbit
  | update =>
    simp only [step] at h
    obtain ⟨r, h2, hw⟩ := Except.map_eq_ok h
    cases hw
    obtain rfl := update_inv h2
    exact hold sg1 hj hbit

theorem reachable_bitpool {V : Type} [Inhabited V] {w : World V} (hr : Reachable w) :
    BitPool w := by
  obtain ⟨ops, out, hrun⟩ := hr
  refine run_induct BitPool (fun _ => true) bitpool_step ops World.init w out
    (fun _ _ => rfl) ?_ hrun
  intro j sg c hj _
  simp [World.init, Registry.empty] at hj

/-- C19. Whenever `add_comp<T>(e, ...)` returns: the systems, the pending set,
the kill set and the entity counter are as before; every other entity keeps its
signature and the signature of `e` changes at most in bit `id(T)`; the pools of
the other component ids are the same; every other entity `e1` for which
`get_comp<T>(e1)` returned a value before returns the same value afterwards,
also when the call resized the pool; and in a reachable state every other
entity `e1` with `has_comp<T>(e1)` true has such a value. -/
theorem add_comp_frame {V : Type} [Inhabited V] (T : Nat) (e : Entity) (obj : V)
    (w w1 : World V) (h : add_comp T e obj w = .ok w1) :
    w1.reg.systems = w.reg.systems ∧
    w1.reg.ents_to_add = w.reg.ents_to_add ∧
    w1.reg.ents_to_kill = w.reg.ents_to_kill ∧
    w1.reg.num_ents = w.reg.num_ents ∧
    w1.reg.ent_comp_signs.length = w.reg.ent_comp_signs.length ∧
    (∀ j, j ≠ e.id → w1.reg.ent_comp_signs[j]? = w.reg.ent_comp_signs[j]?) ∧
    (∃ sg sg1, w.reg.ent_comp_signs[e.id]? = some sg ∧
      w1.reg.ent_comp_signs[e.id]? = some sg1 ∧
      ∀ i, i ≠ (Component.get_id T w.icomp).1 → sg1.bits.testBit i = sg.bits.testBit i) ∧
    (∀ c p, c ≠ (Component.get_id T w.icomp).1 →
      (w1.reg.comp_pools[c]? = some (some p) ↔ w.reg.comp_pools[c]? = some (some p))) ∧
    (∀ e1 v wa, e1.id ≠ e.id → get_comp T e1 w = .ok (v, wa) →
      get_comp T e1 w1 = .ok (v, w1)) ∧
    (Reachable w → ∀ e1 wa, e1.id ≠ e.id → has_comp T e1 w = .ok (true, wa) →
      ∃ v, get_comp T e1 w = .ok (v, wa) ∧ get_comp T e1 w1 = .ok (v, w1)) := by
  have hkeep : ∀ e1 v wa, e1.id ≠ e.id → get_comp T e1 w = .ok (v, wa) →
      get_comp T e1 w1 = .ok (v, w1) := by
    intro e1 v wa hne hg
    obtain ⟨p, hp, hv, -⟩ := get_comp_ok_inv hg
    exact add_comp_keeps_value h hne hp hv
  have hreach : Reachable w → ∀ e1 wa, e1.id ≠ e.id → has_comp T e1 w = .ok (true, wa) →
      ∃ v, get_comp T e1 w = .ok (v, wa) ∧ get_comp T e1 w1 = .ok (v, w1) := by
    intro hr e1 wa hne hh
    obtain ⟨sg, hsg, hb, hwa⟩ := has_comp_inv hh
    simp only at hb hwa
    have hbit : sg.bits.testBit (Component.get_id T w.icomp).1 = true := by
      unfold Signature.test at hb
      split at hb
      · exact Except.ok.inj hb
      · cases hb
    obtain ⟨p, hp, hlt⟩ := reachable_bitpool hr e1.id sg _ (vector_at_eq_ok.mp hsg) hbit
    obtain ⟨v, hv⟩ := @vector_at_of_lt _ p.data e1.id hlt
    have hv1 := vector_at_eq_ok.mp hv
    refine ⟨v, ?_, add_comp_keeps_value h hne hp hv1⟩
    unfold get_comp
    simp only [vector_at_eq_ok.mpr hp, Pool.get, Entity.get_id, hv, hwa]
  obtain ⟨slot, sg, sg1, hslot, hlt, hsg, hsg1, rfl⟩ := add_comp_inv_full h
  refine ⟨rfl, rfl, rfl, rfl, by simp, ?_, ⟨sg, sg1, hsg, ?_, ?_⟩, ?_, hkeep, hreach⟩
  · intro j hj
    simp only [List.getElem?_set]
    rw [if_neg (fun h1 => hj h1.symm)]
  · exact List.getElem?_set_self (List.getElem?_eq_some_iff.mp hsg).1
  · intro i hi
    rw [Signature.testBit_set_true hsg1]
    simp [hi]
  · intro c p hc
    simp only [List.getElem?_set]
    rw [if_neg (fun h1 => hc h1.symm)]
    exact add_comp_pools_get _ _

/-- In `frame_world` entity 0 holds component type 0 with data 5 in a pool of 100
slots; `add_comp<0>(entity 110, 6)` resizes the pool to 111 slots and entity 0
still reads 5. -/
theorem add_comp_frame_witness :
    Reachable frame_world ∧
    add_comp 0 ⟨110⟩ 6 frame_world = .ok frame_after ∧
    (frame_world.reg.comp_pools[0]?.map (Option.map Pool.get_size)) = some (some 100) ∧
    (frame_after.reg.comp_pools[0]?.map (Option.map Pool.get_size)) = some (some 111) ∧
    has_comp 0 ⟨0⟩ frame_world = .ok (true, frame_world) ∧
    ∃ v, get_comp 0 ⟨0⟩ frame_world = .ok (v, frame_world) ∧
      get_comp 0 ⟨0⟩ frame_after = .ok (v, frame_after) :=
  ⟨reachable_of_run_ok rfl, rfl, rfl, rfl, rfl,
    (add_comp_frame 0 ⟨110⟩ 6 frame_world frame_after rfl).2.2.2.2.2.2.2.2.2
      (reachable_of_run_ok rfl) ⟨0⟩ frame_world (by decide) rfl⟩

end ECS
